import Mathlib

/-!
Verification of the multi-provider LLM access layer of the CreateSlide
repository (`src/app/providers/`): error-sentinel classification, credential
resolution and de-duplication (`registry.py`), and the shared retry/fallback
engine with credential rotation, smart wait and cooperative cancellation
(`base.py`).

Modelling conventions (shallow embedding):
* Python exceptions become explicit sum/`Except` results.
* `time.time()` / `time.sleep()` are modelled with an explicit clock
  threaded through the state.  The clock counts half-second ticks — the
  granularity of every sleep in the source: the `_smart_wait` increment
  `0.5` is 1 tick, the inter-cycle `time.sleep(1)` is 2 ticks, and the
  minimum retry delays (`15.0` remote / `1.0` local) are 30 / 2 ticks.
  A sleep of `d` ticks advances the clock by `d`.  Model calls themselves
  are treated as instantaneous (their duration does not influence any
  control-flow decision in the source).
* The abstract `_call_model` is an oracle `ℕ → String → CallResult`
  (attempt counter, model name); the prompt, system text, temperature and
  attachment are threaded through the source unchanged and are therefore
  folded into the oracle.
* The cancellation probe `cancel_check` is a function of the current time;
  a `None` probe is the constantly-false probe.
-/

namespace CreateSlide

/-- Does the character list start with the given pattern? -/
def charsStartWith : List Char → List Char → Bool
  | _, [] => true
  | [], _ :: _ => false
  | a :: as, b :: bs => a == b && charsStartWith as bs

/-- Does the pattern occur contiguously anywhere in the character list? -/
def charsHaveSub : List Char → List Char → Bool
  | [], sub => sub.isEmpty
  | a :: rest, sub => charsStartWith (a :: rest) sub || charsHaveSub rest sub

/-- Python `str.lower()`, written over the character list so that it
evaluates inside the kernel (`String.toLower` is the same map but its
`mapAux` recursion does not kernel-reduce). -/
def strToLower (s : String) : String :=
  String.mk (s.toList.map Char.toLower)

/-- Python `str.strip()`, written over the character list so that it
evaluates inside the kernel (`String.trim` uses `Substring.takeWhileAux`,
which does not kernel-reduce).  Strips leading and trailing whitespace. -/
def strTrim (s : String) : String :=
  String.mk (((s.toList.dropWhile Char.isWhitespace).reverse.dropWhile Char.isWhitespace).reverse)

/-- Python `sub in s` substring test on strings. -/
def strContains (s sub : String) : Bool :=
  charsHaveSub s.toList sub.toList

/-- Result of an adapter error classifier: the sentinel exception raised by
`_classify_*` (severity plus the message it carries). -/
inductive Classified where
  | permanent (msg : String)
  | skip (msg : String)
  | abort (msg : String)
deriving DecidableEq, Repr

/-- Embeds `GeminiProvider._classify_error` (src/app/providers/gemini.py):
pattern matching on `str(exc)` raising one of the three sentinels. -/
def geminiClassify (msg model : String) : Classified :=
  if strContains msg "RESOURCE_EXHAUSTED" || strContains msg "429" then
    if strContains msg "limit: 0" || strContains msg "limit:0" then
      .permanent ("Quota=0 for " ++ model)
    else
      .skip ("Rate limited (429) for " ++ model)
  else if strContains msg "NOT_FOUND" || strContains msg "404" then
    .permanent ("Model " ++ model ++ " not found (404)")
  else if strContains msg "INVALID_ARGUMENT" && strContains msg "API key not valid" then
    .abort "API Key không hợp lệ"
  else if strContains msg "model output must contain" || strContains msg "Tool use is not expected" then
    .skip "Empty/blocked output"
  else
    .skip (msg.take 150)

/-- Embeds `_classify_openai_error` (src/app/providers/openai_provider.py). -/
def openaiClassify (msg model : String) : Classified :=
  let low := strToLower msg
  if strContains msg "429" || strContains low "rate_limit" then
    if strContains low "insufficient_quota" then
      .permanent ("No quota for " ++ model)
    else
      .skip ("Rate limited (429) for " ++ model)
  else if strContains msg "404" || strContains low "model_not_found" then
    .permanent ("Model " ++ model ++ " not found (404)")
  else if strContains low "invalid_api_key" || strContains low "authentication" then
    .abort "OpenAI API Key không hợp lệ"
  else if strContains low "content_filter" || strContains low "content_policy" then
    .skip "Content filtered"
  else
    .skip (msg.take 150)

/-- Embeds `_classify_anthropic_error` (src/app/providers/anthropic_provider.py). -/
def anthropicClassify (msg model : String) : Classified :=
  let low := strToLower msg
  if strContains low "rate_limit" || strContains msg "429" then
    .skip ("Rate limited (429) for " ++ model)
  else if strContains low "not_found" || strContains msg "404" then
    .permanent ("Model " ++ model ++ " not found (404)")
  else if strContains low "authentication" || (strContains low "invalid" && strContains low "api") then
    .abort "Anthropic API Key không hợp lệ"
  else if strContains low "overloaded" then
    .skip ("Server overloaded for " ++ model)
  else
    .skip (msg.take 150)

/-- Embeds `_classify_ollama_error` (src/app/providers/ollama.py). -/
def ollamaClassify (msg model : String) : Classified :=
  let low := strToLower msg
  if strContains low "connection" || strContains low "connect" then
    .abort "Không thể kết nối tới Ollama server. Kiểm tra: 1) Ollama đang chạy? 2) Port đúng chưa? 3) Firewall?"
  else if strContains msg "404" || (strContains low "model" && strContains low "not found") then
    .permanent ("Model " ++ model ++ " not found on Ollama server")
  else if strContains msg "429" || strContains low "rate" then
    .skip ("Rate limited for " ++ model)
  else
    .skip (msg.take 150)

/-- Embeds `_classify_litellm_error` (src/app/providers/litellm_provider.py). -/
def litellmClassify (msg model : String) : Classified :=
  let low := strToLower msg
  if strContains low "rate_limit" || strContains msg "429" then
    .skip ("Rate limited (429) for " ++ model)
  else if strContains low "not_found" || strContains msg "404" || strContains low "does not exist" then
    .permanent ("Model " ++ model ++ " not found")
  else if strContains low "authentication" || strContains low "invalid_api_key" || strContains msg "401" then
    .abort "API Key không hợp lệ"
  else if strContains low "timeout" then
    .skip ("Timeout for " ++ model)
  else
    .skip (msg.take 150)

/-- The disjunction of all raw-error patterns that `GeminiProvider._classify_error`
recognizes (every substring test appearing in its source). -/
def geminiRecognized (msg : String) : Bool :=
  strContains msg "RESOURCE_EXHAUSTED" || strContains msg "429" ||
  strContains msg "NOT_FOUND" || strContains msg "404" ||
  (strContains msg "INVALID_ARGUMENT" && strContains msg "API key not valid") ||
  strContains msg "model output must contain" || strContains msg "Tool use is not expected"

/-- The disjunction of all raw-error patterns recognized by `_classify_openai_error`. -/
def openaiRecognized (msg : String) : Bool :=
  let low := strToLower msg
  strContains msg "429" || strContains low "rate_limit" ||
  strContains msg "404" || strContains low "model_not_found" ||
  strContains low "invalid_api_key" || strContains low "authentication" ||
  strContains low "content_filter" || strContains low "content_policy"

/-- The disjunction of all raw-error patterns recognized by `_classify_anthropic_error`. -/
def anthropicRecognized (msg : String) : Bool :=
  let low := strToLower msg
  strContains low "rate_limit" || strContains msg "429" ||
  strContains low "not_found" || strContains msg "404" ||
  strContains low "authentication" || (strContains low "invalid" && strContains low "api") ||
  strContains low "overloaded"

/-- The disjunction of all raw-error patterns recognized by `_classify_ollama_error`. -/
def ollamaRecognized (msg : String) : Bool :=
  let low := strToLower msg
  strContains low "connection" || strContains low "connect" ||
  strContains msg "404" || (strContains low "model" && strContains low "not found") ||
  strContains msg "429" || strContains low "rate"

/-- The disjunction of all raw-error patterns recognized by `_classify_litellm_error`. -/
def litellmRecognized (msg : String) : Bool :=
  let low := strToLower msg
  strContains low "rate_limit" || strContains msg "429" ||
  strContains low "not_found" || strContains msg "404" || strContains low "does not exist" ||
  strContains low "authentication" || strContains low "invalid_api_key" || strContains msg "401" ||
  strContains low "timeout"

/-! ## Registry: credential resolution (`src/app/providers/registry.py`) -/

/-- De-duplication loop at the end of `resolve_provider_keys`: a `seen` set
and a `unique` accumulator, keeping the first occurrence of each key. -/
def dedupKeepFirst (seen : List String) : List String → List String
  | [] => []
  | k :: ks =>
    if k ∈ seen then dedupKeepFirst seen ks
    else k :: dedupKeepFirst (k :: seen) ks

/-- The `provider_names` lookup `{"openai": "OpenAI", "ollama": "Ollama",
"gemini": "Google"}.get(provider, provider)`. -/
def providerDisplayName (p : String) : String :=
  if p = "openai" then "OpenAI"
  else if p = "ollama" then "Ollama"
  else if p = "gemini" then "Google"
  else p

/-- The message of the ValueError raised when no credential resolves. -/
def missingKeyMsg (p : String) : String :=
  "Thiếu " ++ providerDisplayName p ++
    " API Key. Vui lòng thiết lập biến môi trường hoặc nhập vào giao diện."

/-- Environment and configuration values read by `resolve_provider_keys`:
`os.environ.get` values (`none` = variable unset) and the `settings` defaults. -/
structure KeyEnv where
  openaiEnvVar : Option String
  googleEnvVar : Option String
  openaiApiKey : String
  googleApiKey : String
  ollamaBaseUrl : String

/-- The provider-specific `else:` branch of `resolve_provider_keys`
(environment / settings defaults; for `"ollama"` the configured base URL
fills the credential slot).  `os.environ.get(var, default)` is `Option.getD`;
Python truthiness of a string is `≠ ""`. -/
def resolveEnvDefaults (env : KeyEnv) (provider : String) : List String :=
  if provider = "ollama" then [env.ollamaBaseUrl]
  else if provider = "openai" then
    let envKey := env.openaiEnvVar.getD env.openaiApiKey
    if envKey ≠ "" then [envKey] else []
  else
    let envKey := env.googleEnvVar.getD env.googleApiKey
    if envKey ≠ "" then [envKey] else []

/-- The `elif api_key: … else: …` chain of `resolve_provider_keys`
(reached when no non-empty explicit key list was supplied). -/
def resolveFallback (env : KeyEnv) (provider : String) (apiKey : Option String) :
    List String :=
  match apiKey with
  | some a =>
    if a ≠ "" then [strTrim a]
    else resolveEnvDefaults env provider
  | none => resolveEnvDefaults env provider

/-- The tail of `resolve_provider_keys`: `if not keys_to_use: raise …`,
otherwise de-duplicate preserving order and return. -/
def finalizeKeys (provider : String) (keysToUse : List String) :
    Except String (List String) :=
  if keysToUse = [] then .error (missingKeyMsg provider)
  else .ok (dedupKeepFirst [] keysToUse)

/-- Embeds `resolve_provider_keys` (src/app/providers/registry.py).

`apiKeys = none` is Python `api_keys=None`; `apiKey = none` is
`api_key=None`.  Python truthiness of a list is `≠ []`; the list
comprehension `[k.strip() for k in api_keys if k.strip()]` is the
filter-then-map below. -/
def resolveProviderKeys (env : KeyEnv) (provider : String)
    (apiKey : Option String) (apiKeys : Option (List String)) :
    Except String (List String) :=
  let keysToUse : List String :=
    match apiKeys with
    | some ks =>
      if ks ≠ [] then (ks.filter (fun k => strTrim k ≠ "")).map strTrim
      else resolveFallback env provider apiKey
    | none => resolveFallback env provider apiKey
  finalizeKeys provider keysToUse

theorem finalizeKeys_error (p : String) (l : List String) (m : String)
    (h : finalizeKeys p l = .error m) : m = missingKeyMsg p := by
  by_cases hl : l = []
  · simp [finalizeKeys, hl] at h
    exact h.symm
  · simp [finalizeKeys, hl] at h

theorem finalizeKeys_ok (p : String) (l : List String) (u : List String)
    (h : finalizeKeys p l = .ok u) : u = dedupKeepFirst [] l := by
  by_cases hl : l = []
  · simp [finalizeKeys, hl] at h
  · simp [finalizeKeys, hl] at h
    exact h.symm

/-! ## Retry/fallback engine (`src/app/providers/base.py`)

`LLMProvider.generate` → credential rotation → `_retry_loop` → `_call_model`.
Side effects are recorded in an event trace. -/

/-- Outcome of one `_call_model` invocation: either the returned text, or the
sentinel exception the adapter raised (`_PermanentModelError`,
`_SkipModelError`, `_AbortAllError`), or any other unexpected exception. -/
inductive CallResult where
  | success (text : String)
  | permErr (msg : String)
  | skipErr (msg : String)
  | abortErr (msg : String)
  | otherErr (msg : String)
deriving DecidableEq, Repr

/-- Observable side effects of a call, in order: an invocation of the
cancellation probe, a `time.sleep(d)`, a `_call_model` network-shaped call,
the start of a retry cycle, and the start of one credential's retry loop. -/
inductive Ev where
  | checkEv (t : ℕ)
  | sleepEv (d : ℕ)
  | callEv (model : String)
  | cycleEv (n : ℕ)
  | keyEv (key : String)
deriving DecidableEq, Repr

/-- A classified failure remembered in `last_error` inside `_retry_loop`. -/
inductive ClassErr where
  | permE (msg : String)
  | skipE (msg : String)
  | otherE (msg : String)
deriving DecidableEq, Repr

/-- A ValueError escaping `_retry_loop`: the cancellation error raised by
`_check_cancel` / `_smart_wait`, the re-raised `_AbortAllError`, or the final
"All models failed after N cycles" error carrying `last_error`. -/
inductive RetryErr where
  | cancelled
  | abortAll (msg : String)
  | modelsExhausted (last : Option ClassErr)
deriving DecidableEq, Repr

/-- A ValueError escaping `generate`: no models configured, no credentials
configured, or "All keys exhausted" carrying the last per-key error. -/
inductive GenErr where
  | noModels
  | noKeys
  | allKeysExhausted (last : Option RetryErr)
deriving DecidableEq, Repr

/-- Mutable state of `_retry_loop`: the clock, `permanently_failed`,
`model_last_used`, `last_error`, plus the attempt counter that indexes the
`_call_model` oracle. -/
structure RetrySt where
  now : ℕ
  pf : List String
  lastUsed : String → Option ℕ
  lastError : Option ClassErr
  cnt : ℕ

/-- The `while waited < wait` loop of `_smart_wait`, recursing on the
remaining ticks `wait - waited` (in ticks the step `0.5` is `1`, so the
loop runs once per remaining tick): re-check the probe, raise the
cancellation ValueError if it fires, otherwise `time.sleep(0.5)` (one tick)
and continue.  Returns the events plus either `.error r` (cancelled at
time `r`) or `.ok t` (finished at time `t`). -/
def smartWaitGo (probe : ℕ → Bool) : ℕ → ℕ → List Ev × Except ℕ ℕ
  | 0, now => ([], .ok now)
  | n + 1, now =>
    if probe now then ([.checkEv now], .error now)
    else
      let r := smartWaitGo probe n (now + 1)
      (.checkEv now :: .sleepEv 1 :: r.1, r.2)

/-- Embeds `LLMProvider._smart_wait`: no wait when the model has no recorded
timestamp (`time.time()` is never zero, so `last == 0` identifies an absent
key of `model_last_used`) or when `min_delay` has already elapsed; otherwise
run the interruptible sleeping loop for the remainder. -/
def smartWait (probe : ℕ → Bool) (model : String) (timestamps : String → Option ℕ)
    (minDelay : ℕ) (now : ℕ) : List Ev × Except ℕ ℕ :=
  match timestamps model with
  | none => ([], .ok now)
  | some last =>
    let elapsed := now - last
    if minDelay ≤ elapsed then ([], .ok now)
    else smartWaitGo probe (minDelay - elapsed) now

/-- Embeds the `for model_name in models:` loop of `LLMProvider._retry_loop`:
skip permanently failed models, smart-wait, record the timestamp, call the
model, and dispatch on the outcome.  `Sum.inl st` means the loop ran off the
end of the list (state for the next cycle); `Sum.inr` is an early return:
`.ok (text, model)` on success, `.error` for a propagating ValueError. -/
def runModels (call : ℕ → String → CallResult) (probe : ℕ → Bool) (minDelay : ℕ) :
    List String → RetrySt → List Ev × (RetrySt ⊕ Except RetryErr (String × String))
  | [], st => ([], Sum.inl st)
  | m :: rest, st =>
    if m ∈ st.pf then runModels call probe minDelay rest st
    else
      let sw := smartWait probe m st.lastUsed minDelay st.now
      match sw.2 with
      | .error _ => (sw.1, Sum.inr (.error .cancelled))
      | .ok now1 =>
        let st1 : RetrySt :=
          { st with now := now1,
                    lastUsed := fun x => if x = m then some now1 else st.lastUsed x,
                    cnt := st.cnt + 1 }
        let evs := sw.1 ++ [Ev.callEv m]
        match call st.cnt m with
        | .success text =>
          if strTrim text ≠ "" then (evs, Sum.inr (.ok (strTrim text, m)))
          else
            let r := runModels call probe minDelay rest st1
            (evs ++ r.1, r.2)
        | .permErr msg =>
          let r := runModels call probe minDelay rest
            { st1 with pf := m :: st1.pf, lastError := some (.permE msg) }
          (evs ++ r.1, r.2)
        | .skipErr msg =>
          let r := runModels call probe minDelay rest
            { st1 with lastError := some (.skipE msg) }
          (evs ++ r.1, r.2)
        | .abortErr msg => (evs, Sum.inr (.error (.abortAll msg)))
        | .otherErr msg =>
          let r := runModels call probe minDelay rest
            { st1 with lastError := some (.otherE msg) }
          (evs ++ r.1, r.2)

/-- Embeds the `for cycle in range(1, total_cycles + 1):` loop of
`_retry_loop`; `rem` counts the remaining iterations (`retryLoop` starts it
at `totalCycles`, so the body runs for `cycle = 1 … totalCycles`).  When the
iterations are exhausted, or when `available` is empty (the `break`), raise
the "All models failed" ValueError carrying `last_error`; between cycles
(`cycle < total_cycles`) pause with a flat `time.sleep(1)`. -/
def runCycles (call : ℕ → String → CallResult) (probe : ℕ → Bool)
    (models : List String) (minDelay : ℕ) (totalCycles : ℕ) :
    ℕ → ℕ → RetrySt → List Ev × Except RetryErr (String × String)
  | 0, _, st => ([], .error (.modelsExhausted st.lastError))
  | rem + 1, cycle, st =>
    if probe st.now then ([.checkEv st.now], .error .cancelled)
    else
      let evs0 := [Ev.checkEv st.now, Ev.cycleEv cycle]
      let available := models.filter (fun m => m ∉ st.pf)
      if available = [] then (evs0, .error (.modelsExhausted st.lastError))
      else
        match runModels call probe minDelay models st with
        | (evs, Sum.inr out) => (evs0 ++ evs, out)
        | (evs, Sum.inl st') =>
          if cycle < totalCycles then
            let r := runCycles call probe models minDelay totalCycles rem (cycle + 1)
              { st' with now := st'.now + 2 }
            (evs0 ++ evs ++ [Ev.sleepEv 2] ++ r.1, r.2)
          else
            let r := runCycles call probe models minDelay totalCycles rem (cycle + 1) st'
            (evs0 ++ evs ++ r.1, r.2)

/-- Embeds `LLMProvider._retry_loop` for one credential: fresh per-call
state (`permanently_failed = ∅`, `model_last_used = {}`), starting at
time `t0`. -/
def retryLoop (call : ℕ → String → CallResult) (probe : ℕ → Bool)
    (models : List String) (minDelay : ℕ) (totalCycles : ℕ) (t0 : ℕ) :
    List Ev × Except RetryErr (String × String) :=
  runCycles call probe models minDelay totalCycles totalCycles 1
    { now := t0, pf := [], lastUsed := fun _ => none, lastError := none, cnt := 0 }

/-- Total time slept in a trace (the clock advances only in `time.sleep`). -/
def slept : List Ev → ℕ
  | [] => 0
  | .sleepEv d :: rest => d + slept rest
  | _ :: rest => slept rest

/-- Embeds the `for idx, key in enumerate(keys):` credential-rotation loop of
`LLMProvider.generate`: run `_retry_loop` for each key in order; any
exception is remembered as `last_exc` and the next key is tried; when the
keys run out raise the "All keys exhausted" ValueError. -/
def genGo (call : String → ℕ → String → CallResult) (probe : ℕ → Bool)
    (models : List String) (minDelay : ℕ) (totalCycles : ℕ) :
    List String → ℕ → Option RetryErr → List Ev × Except GenErr (String × String)
  | [], _, lastExc => ([], .error (.allKeysExhausted lastExc))
  | k :: rest, t0, _lastExc =>
    let r := retryLoop (call k) probe models minDelay totalCycles t0
    match r.2 with
    | .ok res => (Ev.keyEv k :: r.1, .ok res)
    | .error e =>
      let r2 := genGo call probe models minDelay totalCycles rest (t0 + slept r.1) (some e)
      (Ev.keyEv k :: r.1 ++ r2.1, r2.2)

/-- Embeds `LLMProvider.generate` (src/app/providers/base.py):
`models = model_list or self.default_model_list` (fail when empty),
`keys = self.api_keys or self._resolve_env_keys()` (fail when empty),
then the credential-rotation loop. -/
def generate (call : String → ℕ → String → CallResult) (probe : ℕ → Bool)
    (apiKeys envKeys modelList defaultModels : List String)
    (minDelay : ℕ) (totalCycles : ℕ) (t0 : ℕ) :
    List Ev × Except GenErr (String × String) :=
  let models := if modelList = [] then defaultModels else modelList
  if models = [] then ([], .error .noModels)
  else
    let keys := if apiKeys = [] then envKeys else apiKeys
    if keys = [] then ([], .error .noKeys)
    else genGo call probe models minDelay totalCycles keys t0 none

/-- Is the call result a `_PermanentModelError`? -/
def isPermRes : CallResult → Bool
  | .permErr _ => true
  | _ => false

/-- Is the call result a `_SkipModelError`? -/
def isSkipRes : CallResult → Bool
  | .skipErr _ => true
  | _ => false

/-- Is the event a network-shaped `_call_model` invocation? -/
def isCallEv : Ev → Bool
  | .callEv _ => true
  | _ => false

/-- Is the event the start of a retry cycle? -/
def isCycleEv : Ev → Bool
  | .cycleEv _ => true
  | _ => false

/-- The credentials attempted by the rotation loop, in order. -/
def keyEvsOf : List Ev → List String
  | [] => []
  | .keyEv k :: rest => k :: keyEvsOf rest
  | _ :: rest => keyEvsOf rest

/-- Is the event a `time.sleep`? -/
def isSleepEv : Ev → Bool
  | .sleepEv _ => true
  | _ => false

/-- Is the event an invocation of the cancellation probe? -/
def isCheckEv : Ev → Bool
  | .checkEv _ => true
  | _ => false

/-! ## Helper lemmas -/

theorem dedupKeepFirst_not_mem_seen (l : List String) :
    ∀ seen, ∀ x ∈ dedupKeepFirst seen l, x ∉ seen := by
  induction l with
  | nil => intro seen x hx; simp [dedupKeepFirst] at hx
  | cons k ks ih =>
    intro seen x hx
    by_cases hk : k ∈ seen
    · simp only [dedupKeepFirst, if_pos hk] at hx
      exact ih seen x hx
    · simp only [dedupKeepFirst, if_neg hk] at hx
      rcases List.mem_cons.mp hx with rfl | hx
      · exact hk
      · have := ih (k :: seen) x hx
        exact fun hs => this (List.mem_cons_of_mem _ hs)

theorem dedupKeepFirst_nodup (l : List String) : ∀ seen, (dedupKeepFirst seen l).Nodup := by
  induction l with
  | nil => intro seen; simp [dedupKeepFirst]
  | cons k ks ih =>
    intro seen
    by_cases hk : k ∈ seen
    · simp only [dedupKeepFirst, if_pos hk]; exact ih seen
    · simp only [dedupKeepFirst, if_neg hk]
      refine List.nodup_cons.mpr ⟨?_, ih (k :: seen)⟩
      intro hmem
      exact dedupKeepFirst_not_mem_seen ks (k :: seen) k hmem (List.mem_cons_self k seen)

theorem dedupKeepFirst_sublist (l : List String) :
    ∀ seen, (dedupKeepFirst seen l).Sublist l := by
  induction l with
  | nil => intro seen; simp [dedupKeepFirst]
  | cons k ks ih =>
    intro seen
    by_cases hk : k ∈ seen
    · simp only [dedupKeepFirst, if_pos hk]
      exact (ih seen).cons k
    · simp only [dedupKeepFirst, if_neg hk]
      exact (ih (k :: seen)).cons₂ k

theorem keyEvsOf_append (xs ys : List Ev) :
    keyEvsOf (xs ++ ys) = keyEvsOf xs ++ keyEvsOf ys := by
  induction xs with
  | nil => rfl
  | cons e rest ih => cases e <;> simp [keyEvsOf, ih]

theorem smartWaitGo_keyEvsOf (probe : ℕ → Bool) (n : ℕ) :
    ∀ t, keyEvsOf (smartWaitGo probe n t).1 = [] := by
  induction n with
  | zero => intro t; rfl
  | succ n ih =>
    intro t
    by_cases hp : probe t
    · simp [smartWaitGo, hp, keyEvsOf]
    · simp [smartWaitGo, hp, keyEvsOf, ih]

theorem smartWait_keyEvsOf (probe : ℕ → Bool) (m : String)
    (ts : String → Option ℕ) (minDelay now : ℕ) :
    keyEvsOf (smartWait probe m ts minDelay now).1 = [] := by
  unfold smartWait
  cases ts m with
  | none => rfl
  | some last =>
    by_cases h : minDelay ≤ now - last
    · simp [h, keyEvsOf]
    · simp [h, smartWaitGo_keyEvsOf]

theorem runModels_keyEvsOf (call : ℕ → String → CallResult) (probe : ℕ → Bool)
    (minDelay : ℕ) (ms : List String) :
    ∀ st, keyEvsOf (runModels call probe minDelay ms st).1 = [] := by
  induction ms with
  | nil => intro st; rfl
  | cons m rest ih =>
    intro st
    by_cases hpf : m ∈ st.pf
    · simp only [runModels, if_pos hpf]; exact ih st
    · simp only [runModels, if_neg hpf]
      cases hsw : (smartWait probe m st.lastUsed minDelay st.now).2 with
      | error r =>
        simp only [hsw]
        exact smartWait_keyEvsOf probe m st.lastUsed minDelay st.now
      | ok now1 =>
        have hkw := smartWait_keyEvsOf probe m st.lastUsed minDelay st.now
        cases hc : call st.cnt m with
        | success text =>
          by_cases ht : strTrim text ≠ ""
          · simp [hsw, hc, ht, keyEvsOf_append, hkw, keyEvsOf]
          · simp [hsw, hc, ht, keyEvsOf_append, hkw, keyEvsOf, ih]
        | permErr msg => simp [hsw, hc, keyEvsOf_append, hkw, keyEvsOf, ih]
        | skipErr msg => simp [hsw, hc, keyEvsOf_append, hkw, keyEvsOf, ih]
        | abortErr msg => simp [hsw, hc, keyEvsOf_append, hkw, keyEvsOf]
        | otherErr msg => simp [hsw, hc, keyEvsOf_append, hkw, keyEvsOf, ih]

theorem runCycles_keyEvsOf (call : ℕ → String → CallResult) (probe : ℕ → Bool)
    (models : List String) (minDelay : ℕ) (totalCycles : ℕ) (rem : ℕ) :
    ∀ cycle st, keyEvsOf (runCycles call probe models minDelay totalCycles rem cycle st).1 = [] := by
  induction rem with
  | zero => intro cycle st; rfl
  | succ rem ih =>
    intro cycle st
    have hrm := runModels_keyEvsOf call probe minDelay models st
    rcases hr : runModels call probe minDelay models st with ⟨evs, st' | out⟩ <;>
      rw [hr] at hrm <;>
      simp only [runCycles, hr] <;> split_ifs <;>
      simp [keyEvsOf, keyEvsOf_append, hrm, ih]

theorem retryLoop_keyEvsOf (call : ℕ → String → CallResult) (probe : ℕ → Bool)
    (models : List String) (minDelay : ℕ) (totalCycles : ℕ) (t0 : ℕ) :
    keyEvsOf (retryLoop call probe models minDelay totalCycles t0).1 = [] :=
  runCycles_keyEvsOf call probe models minDelay totalCycles totalCycles 1 _

theorem genGo_keys_in_order (call : String → ℕ → String → CallResult) (probe : ℕ → Bool)
    (models : List String) (minDelay : ℕ) (totalCycles : ℕ) :
    ∀ (keys : List String) (t0 : ℕ) (le : Option RetryErr),
      (∃ n, keyEvsOf (genGo call probe models minDelay totalCycles keys t0 le).1 = keys.take n) ∧
      (∀ e, (genGo call probe models minDelay totalCycles keys t0 le).2 = .error e →
        keyEvsOf (genGo call probe models minDelay totalCycles keys t0 le).1 = keys) := by
  intro keys
  induction keys with
  | nil => intro t0 le; exact ⟨⟨0, rfl⟩, fun e _ => rfl⟩
  | cons k rest ih =>
    intro t0 le
    have hkr := retryLoop_keyEvsOf (call k) probe models minDelay totalCycles t0
    rcases hr : retryLoop (call k) probe models minDelay totalCycles t0 with ⟨revs, res⟩
    rw [hr] at hkr
    cases res with
    | ok v =>
      replace hkr : keyEvsOf revs = [] := hkr
      constructor
      · exact ⟨1, by simp [genGo, hr, keyEvsOf, hkr]⟩
      · intro e he
        simp [genGo, hr] at he
    | error err =>
      replace hkr : keyEvsOf revs = [] := hkr
      obtain ⟨⟨n, hn⟩, herr⟩ := ih (t0 + slept revs) (some err)
      constructor
      · refine ⟨n + 1, ?_⟩
        simp only [genGo, hr, keyEvsOf, List.append_eq, keyEvsOf_append, hkr,
          List.nil_append, List.take_succ_cons, List.singleton_append, hn]
      · intro e he
        simp only [genGo, hr] at he ⊢
        simp only [keyEvsOf, List.append_eq, keyEvsOf_append, hkr, List.nil_append]
        rw [herr e he]

theorem retryLoop_probe_true (call : ℕ → String → CallResult) (probe : ℕ → Bool)
    (models : List String) (minDelay : ℕ) (totalCycles : ℕ) (t0 : ℕ)
    (hp : probe t0 = true) (htc : 1 ≤ totalCycles) :
    retryLoop call probe models minDelay totalCycles t0
      = ([.checkEv t0], .error .cancelled) := by
  cases totalCycles with
  | zero => omega
  | succ n => simp [retryLoop, runCycles, hp]

theorem genGo_probe_true (call : String → ℕ → String → CallResult) (probe : ℕ → Bool)
    (models : List String) (minDelay : ℕ) (totalCycles : ℕ)
    (htc : 1 ≤ totalCycles) :
    ∀ (keys : List String) (t0 : ℕ) (le : Option RetryErr), keys ≠ [] →
      probe t0 = true →
      (genGo call probe models minDelay totalCycles keys t0 le).2
          = .error (.allKeysExhausted (some .cancelled)) ∧
        (genGo call probe models minDelay totalCycles keys t0 le).1.countP isCallEv = 0 := by
  intro keys
  induction keys with
  | nil => intro t0 le h; exact absurd rfl h
  | cons k rest ih =>
    intro t0 le _ hp
    have hr := retryLoop_probe_true (call k) probe models minDelay totalCycles t0 hp htc
    by_cases hrest : rest = []
    · subst hrest
      simp [genGo, hr, isCallEv]
    · have hp' : probe (t0 + slept [Ev.checkEv t0]) = true := by simpa [slept] using hp
      obtain ⟨h1, h2⟩ := ih (t0 + slept [Ev.checkEv t0]) (some .cancelled) hrest hp'
      constructor
      · simp only [genGo, hr]
        exact h1
      · simp only [genGo, hr, List.countP_cons, List.countP_append, List.countP_nil,
          h2, isCallEv]
        simp

theorem smartWaitGo_countP (p : Ev → Bool) (hch : ∀ t, p (.checkEv t) = false)
    (hsl : ∀ d, p (.sleepEv d) = false) (probe : ℕ → Bool) (n : ℕ) :
    ∀ t, (smartWaitGo probe n t).1.countP p = 0 := by
  induction n with
  | zero => intro t; rfl
  | succ n ih =>
    intro t
    by_cases hp : probe t
    · simp [smartWaitGo, hp, List.countP_cons, hch]
    · simp [smartWaitGo, hp, List.countP_cons, hch, hsl, ih]

theorem smartWait_countP (p : Ev → Bool) (hch : ∀ t, p (.checkEv t) = false)
    (hsl : ∀ d, p (.sleepEv d) = false) (probe : ℕ → Bool) (m : String)
    (ts : String → Option ℕ) (minDelay now : ℕ) :
    (smartWait probe m ts minDelay now).1.countP p = 0 := by
  unfold smartWait
  cases ts m with
  | none => rfl
  | some last =>
    by_cases h : minDelay ≤ now - last
    · simp [h]
    · simp [h, smartWaitGo_countP p hch hsl]

theorem runModels_countP (p : Ev → Bool) (hch : ∀ t, p (.checkEv t) = false)
    (hsl : ∀ d, p (.sleepEv d) = false) (hca : ∀ m, p (.callEv m) = false)
    (call : ℕ → String → CallResult) (probe : ℕ → Bool) (minDelay : ℕ) (ms : List String) :
    ∀ st, (runModels call probe minDelay ms st).1.countP p = 0 := by
  induction ms with
  | nil => intro st; rfl
  | cons m rest ih =>
    intro st
    have hsm := smartWait_countP p hch hsl probe m st.lastUsed minDelay st.now
    by_cases hpf : m ∈ st.pf
    · simp only [runModels, if_pos hpf]; exact ih st
    · simp only [runModels, if_neg hpf]
      cases hsw : (smartWait probe m st.lastUsed minDelay st.now).2 with
      | error r => simpa [hsw] using hsm
      | ok now1 =>
        cases hc : call st.cnt m with
        | success text =>
          by_cases ht : strTrim text ≠ ""
          · simp [hsw, hc, ht, List.countP_append, List.countP_cons, hsm, hca]
          · simp [hsw, hc, ht, List.countP_append, List.countP_cons, hsm, hca, ih]
        | permErr msg => simp [hsw, hc, List.countP_append, List.countP_cons, hsm, hca, ih]
        | skipErr msg => simp [hsw, hc, List.countP_append, List.countP_cons, hsm, hca, ih]
        | abortErr msg => simp [hsw, hc, List.countP_append, List.countP_cons, hsm, hca]
        | otherErr msg => simp [hsw, hc, List.countP_append, List.countP_cons, hsm, hca, ih]

theorem smartWaitGo_probe_false (probe : ℕ → Bool) (hp : ∀ t, probe t = false) (n : ℕ) :
    ∀ t, (smartWaitGo probe n t).2 = .ok (t + n) := by
  induction n with
  | zero => intro t; simp [smartWaitGo]
  | succ n ih =>
    intro t
    have := ih (t + 1)
    simp only [smartWaitGo, hp]
    rw [this]
    simp
    omega

theorem smartWait_probe_false (probe : ℕ → Bool) (hp : ∀ t, probe t = false)
    (m : String) (ts : String → Option ℕ) (minDelay now : ℕ) :
    ∃ u, (smartWait probe m ts minDelay now).2 = .ok u := by
  unfold smartWait
  cases ts m with
  | none => exact ⟨now, rfl⟩
  | some last =>
    by_cases h : minDelay ≤ now - last
    · simp [h]
    · simp [h, smartWaitGo_probe_false probe hp]

theorem runModels_allSkip (call : ℕ → String → CallResult) (probe : ℕ → Bool)
    (minDelay : ℕ) (hsk : ∀ n m, isSkipRes (call n m) = true)
    (hp : ∀ t, probe t = false) (ms : List String) :
    ∀ st, ∃ st2, (runModels call probe minDelay ms st).2 = Sum.inl st2 ∧
      st2.pf = st.pf ∧
      ((∀ x ∈ ms, x ∈ st.pf) → st2.lastError = st.lastError) ∧
      ((∃ x ∈ ms, x ∉ st.pf) → ∃ s, st2.lastError = some (.skipE s)) := by
  induction ms with
  | nil =>
    intro st
    exact ⟨st, rfl, rfl, fun _ => rfl, by simp⟩
  | cons m rest ih =>
    intro st
    by_cases hpf : m ∈ st.pf
    · obtain ⟨st2, h1, h2, h3, h4⟩ := ih st
      refine ⟨st2, by simpa [runModels, hpf] using h1, h2, ?_, ?_⟩
      · intro hall
        exact h3 fun x hx => hall x (List.mem_cons_of_mem m hx)
      · rintro ⟨x, hx, hnpf⟩
        rcases List.mem_cons.mp hx with rfl | hx
        · exact absurd hpf hnpf
        · exact h4 ⟨x, hx, hnpf⟩
    · obtain ⟨u, hu⟩ := smartWait_probe_false probe hp m st.lastUsed minDelay st.now
      have hskm := hsk st.cnt m
      cases hc : call st.cnt m with
      | success text => rw [hc] at hskm; cases hskm
      | permErr s => rw [hc] at hskm; cases hskm
      | abortErr s => rw [hc] at hskm; cases hskm
      | otherErr s => rw [hc] at hskm; cases hskm
      | skipErr s =>
        obtain ⟨st2, h1, h2, h3, h4⟩ := ih
          { st with now := u,
                    lastUsed := fun x => if x = m then some u else st.lastUsed x,
                    cnt := st.cnt + 1, lastError := some (.skipE s) }
        refine ⟨st2, ?_, h2, ?_, ?_⟩
        · simpa [runModels, hpf, hu, hc] using h1
        · intro hall
          exact absurd (hall m (List.mem_cons_self m rest)) hpf
        · intro _
          by_cases hrest : ∃ x ∈ rest, x ∉ st.pf
          · exact h4 hrest
          · push_neg at hrest
            exact ⟨s, h3 hrest⟩

theorem runCycles_allSkip (call : ℕ → String → CallResult) (probe : ℕ → Bool)
    (models : List String) (minDelay : ℕ) (totalCycles : ℕ)
    (hsk : ∀ n m, isSkipRes (call n m) = true) (hp : ∀ t, probe t = false) :
    ∀ rem cycle st, 1 ≤ rem → (∃ x ∈ models, x ∉ st.pf) →
      (∃ s, (runCycles call probe models minDelay totalCycles rem cycle st).2
        = .error (.modelsExhausted (some (.skipE s)))) ∧
      (runCycles call probe models minDelay totalCycles rem cycle st).1.countP isCycleEv
        = rem := by
  intro rem
  induction rem with
  | zero => intro cycle st h; omega
  | succ rem ih =>
    intro cycle st _ hex
    have hav : models.filter (fun m => m ∉ st.pf) ≠ [] := by
      obtain ⟨x, hx, hnpf⟩ := hex
      exact List.ne_nil_of_mem (List.mem_filter.mpr ⟨hx, by simpa using hnpf⟩)
    obtain ⟨st2, h1, h2, _h3, h4⟩ := runModels_allSkip call probe minDelay hsk hp models st
    obtain ⟨s, hs⟩ := h4 hex
    have hcm := runModels_countP isCycleEv (fun _ => rfl) (fun _ => rfl) (fun _ => rfl)
      call probe minDelay models st
    rcases hr : runModels call probe minDelay models st with ⟨evs, out⟩
    rw [hr] at h1 hcm
    simp only at h1 hcm
    subst h1
    simp only [runCycles, hp, Bool.false_eq_true, if_false, if_neg hav, hr]
    by_cases hrem : rem = 0
    · subst hrem
      split_ifs <;>
        simp [runCycles, List.countP_append, List.countP_cons, hcm, isCycleEv, hs]
    · have hex2 : ∃ x ∈ models, x ∉ st2.pf := by rw [h2]; exact hex
      obtain ⟨hih1, hih2⟩ := ih (cycle + 1)
        { st2 with now := st2.now + 2 } (by omega) hex2
      obtain ⟨hih1b, hih2b⟩ := ih (cycle + 1) st2 (by omega) hex2
      obtain ⟨s1, hs1⟩ := hih1
      obtain ⟨s1b, hs1b⟩ := hih1b
      constructor
      · split_ifs
        · exact ⟨s1, by simpa using hs1⟩
        · exact ⟨s1b, by simpa using hs1b⟩
      · split_ifs <;>
          simp [List.countP_append, List.countP_cons, hcm, isCycleEv, hih2, hih2b]

/-- Number of `_call_model` attempts of model `m` recorded in a trace. -/
def callsTo (m : String) : List Ev → ℕ
  | [] => 0
  | .callEv m2 :: rest => (if m2 = m then 1 else 0) + callsTo m rest
  | _ :: rest => callsTo m rest

theorem callsTo_append (m : String) (xs ys : List Ev) :
    callsTo m (xs ++ ys) = callsTo m xs + callsTo m ys := by
  induction xs with
  | nil => simp [callsTo]
  | cons e rest ih => cases e <;> (simp [callsTo, ih]; try omega)

theorem smartWaitGo_callsTo (m : String) (probe : ℕ → Bool) (n : ℕ) :
    ∀ t, callsTo m (smartWaitGo probe n t).1 = 0 := by
  induction n with
  | zero => intro t; rfl
  | succ n ih =>
    intro t
    by_cases hp : probe t
    · simp [smartWaitGo, hp, callsTo]
    · simp [smartWaitGo, hp, callsTo, ih]

theorem smartWait_callsTo (m : String) (probe : ℕ → Bool) (m2 : String)
    (ts : String → Option ℕ) (minDelay now : ℕ) :
    callsTo m (smartWait probe m2 ts minDelay now).1 = 0 := by
  unfold smartWait
  cases ts m2 with
  | none => rfl
  | some last =>
    by_cases h : minDelay ≤ now - last
    · simp [h, callsTo]
    · simp [h, smartWaitGo_callsTo]

theorem runModels_pf_mono (call : ℕ → String → CallResult) (probe : ℕ → Bool)
    (minDelay : ℕ) (ms : List String) :
    ∀ st st', (runModels call probe minDelay ms st).2 = Sum.inl st' →
      st.pf ⊆ st'.pf := by
  induction ms with
  | nil =>
    intro st st' h
    simp only [runModels] at h
    cases h
    exact fun x hx => hx
  | cons m2 rest ih =>
    intro st st' h
    by_cases hpf : m2 ∈ st.pf
    · simp only [runModels, if_pos hpf] at h
      exact ih st st' h
    · simp only [runModels, if_neg hpf] at h
      cases hsw : (smartWait probe m2 st.lastUsed minDelay st.now).2 with
      | error r => simp [hsw] at h
      | ok now1 =>
        simp only [hsw] at h
        cases hc : call st.cnt m2 with
        | success text =>
          simp only [hc] at h
          by_cases ht : strTrim text ≠ ""
          · simp [if_pos ht] at h
          · simp only [if_neg ht] at h
            have hsub := ih _ st' h
            exact fun x hx => hsub hx
        | permErr s =>
          simp only [hc] at h
          have hsub := ih _ st' h
          exact fun x hx => hsub (List.mem_cons_of_mem m2 hx)
        | skipErr s =>
          simp only [hc] at h
          have hsub := ih _ st' h
          exact fun x hx => hsub hx
        | abortErr s => simp [hc] at h
        | otherErr s =>
          simp only [hc] at h
          have hsub := ih _ st' h
          exact fun x hx => hsub hx

theorem runModels_perm_mem (call : ℕ → String → CallResult) (probe : ℕ → Bool)
    (minDelay : ℕ) (m : String) (hperm : ∀ n, isPermRes (call n m) = true)
    (ms : List String) :
    ∀ st st', (runModels call probe minDelay ms st).2 = Sum.inl st' →
      m ∈ ms → m ∈ st'.pf := by
  induction ms with
  | nil => intro st st' _ hm; cases hm
  | cons m2 rest ih =>
    intro st st' h hm
    by_cases hpf : m2 ∈ st.pf
    · simp only [runModels, if_pos hpf] at h
      rcases List.mem_cons.mp hm with rfl | hm2
      · exact runModels_pf_mono call probe minDelay rest st st' h hpf
      · exact ih st st' h hm2
    · simp only [runModels, if_neg hpf] at h
      cases hsw : (smartWait probe m2 st.lastUsed minDelay st.now).2 with
      | error r => simp [hsw] at h
      | ok now1 =>
        simp only [hsw] at h
        rcases List.mem_cons.mp hm with rfl | hm2
        · have hp2 := hperm st.cnt
          cases hc : call st.cnt m with
          | permErr s =>
            simp only [hc] at h
            have := runModels_pf_mono call probe minDelay rest _ st' h
            exact this (List.mem_cons_self m _)
          | success text => rw [hc] at hp2; cases hp2
          | skipErr s => rw [hc] at hp2; cases hp2
          | abortErr s => rw [hc] at hp2; cases hp2
          | otherErr s => rw [hc] at hp2; cases hp2
        · cases hc : call st.cnt m2 with
          | success text =>
            simp only [hc] at h
            by_cases ht : strTrim text ≠ ""
            · simp [if_pos ht] at h
            · simp only [if_neg ht] at h
              exact ih _ st' h hm2
          | permErr s =>
            simp only [hc] at h
            exact ih _ st' h hm2
          | skipErr s =>
            simp only [hc] at h
            exact ih _ st' h hm2
          | abortErr s => simp [hc] at h
          | otherErr s =>
            simp only [hc] at h
            exact ih _ st' h hm2

theorem iteCountMono {c1 c2 : Prop} [Decidable c1] [Decidable c2] (h : c1 → c2) :
    (if c1 then (1 : ℕ) else 0) ≤ if c2 then 1 else 0 := by
  by_cases hc : c1
  · simp [hc, h hc]
  · simp [hc]

theorem runModels_callsTo_le (call : ℕ → String → CallResult) (probe : ℕ → Bool)
    (minDelay : ℕ) (m : String) (ms : List String) :
    ∀ st, ms.Nodup →
      callsTo m (runModels call probe minDelay ms st).1
        ≤ (if m ∈ ms ∧ m ∉ st.pf then 1 else 0) := by
  induction ms with
  | nil => intro st _; simp [runModels, callsTo]
  | cons m2 rest ih =>
    intro st hnd
    obtain ⟨hm2, hndr⟩ := List.nodup_cons.mp hnd
    have hswz := smartWait_callsTo m probe m2 st.lastUsed minDelay st.now
    by_cases hpf : m2 ∈ st.pf
    · simp only [runModels, if_pos hpf]
      exact le_trans (ih st hndr)
        (iteCountMono fun hc => ⟨List.mem_cons_of_mem m2 hc.1, hc.2⟩)
    · simp only [runModels, if_neg hpf]
      cases hsw : (smartWait probe m2 st.lastUsed minDelay st.now).2 with
      | error r =>
        simp only [hsw]
        simp [hswz]
      | ok now1 =>
        cases hc : call st.cnt m2 with
        | success text =>
          by_cases ht : strTrim text ≠ ""
          · simp only [hsw, hc, if_pos ht, callsTo_append, hswz, callsTo,
              Nat.zero_add, Nat.add_zero]
            exact iteCountMono fun hcc => by
              subst hcc; exact ⟨List.mem_cons_self m2 rest, hpf⟩
          · simp only [hsw, hc, if_neg ht, callsTo_append, hswz, callsTo,
              Nat.zero_add, Nat.add_zero]
            by_cases hmm : m2 = m
            · subst hmm
              have h0 : callsTo m2 (runModels call probe minDelay rest
                  { st with
                      now := now1,
                      lastUsed := fun x => if x = m2 then some now1 else st.lastUsed x,
                      cnt := st.cnt + 1 }).1 = 0 :=
                Nat.le_zero.mp (le_trans (ih _ hndr) (by simp [hm2]))
              rw [h0, if_pos rfl]
              simp [hpf]
            · rw [if_neg hmm, Nat.zero_add]
              exact le_trans (ih _ hndr)
                (iteCountMono fun hcc => ⟨List.mem_cons_of_mem m2 hcc.1, hcc.2⟩)
        | permErr s =>
          simp only [hsw, hc, callsTo_append, hswz, callsTo, Nat.zero_add, Nat.add_zero]
          by_cases hmm : m2 = m
          · subst hmm
            have h0 : callsTo m2 (runModels call probe minDelay rest
                { st with
                    now := now1, pf := m2 :: st.pf,
                    lastUsed := fun x => if x = m2 then some now1 else st.lastUsed x,
                    lastError := some (.permE s), cnt := st.cnt + 1 }).1 = 0 :=
              Nat.le_zero.mp (le_trans (ih _ hndr) (by simp [hm2]))
            rw [h0, if_pos rfl]
            simp [hpf]
          · rw [if_neg hmm, Nat.zero_add]
            exact le_trans (ih _ hndr)
              (iteCountMono fun hcc => ⟨List.mem_cons_of_mem m2 hcc.1,
                fun hx => hcc.2 (List.mem_cons_of_mem m2 hx)⟩)
        | skipErr s =>
          simp only [hsw, hc, callsTo_append, hswz, callsTo, Nat.zero_add, Nat.add_zero]
          by_cases hmm : m2 = m
          · subst hmm
            have h0 : callsTo m2 (runModels call probe minDelay rest
                { st with
                    now := now1,
                    lastUsed := fun x => if x = m2 then some now1 else st.lastUsed x,
                    lastError := some (.skipE s), cnt := st.cnt + 1 }).1 = 0 :=
              Nat.le_zero.mp (le_trans (ih _ hndr) (by simp [hm2]))
            rw [h0, if_pos rfl]
            simp [hpf]
          · rw [if_neg hmm, Nat.zero_add]
            exact le_trans (ih _ hndr)
              (iteCountMono fun hcc => ⟨List.mem_cons_of_mem m2 hcc.1, hcc.2⟩)
        | abortErr s =>
          simp only [hsw, hc, callsTo_append, hswz, callsTo, Nat.zero_add, Nat.add_zero]
          exact iteCountMono fun hcc => by
            subst hcc; exact ⟨List.mem_cons_self m2 rest, hpf⟩
        | otherErr s =>
          simp only [hsw, hc, callsTo_append, hswz, callsTo, Nat.zero_add, Nat.add_zero]
          by_cases hmm : m2 = m
          · subst hmm
            have h0 : callsTo m2 (runModels call probe minDelay rest
                { st with
                    now := now1,
                    lastUsed := fun x => if x = m2 then some now1 else st.lastUsed x,
                    lastError := some (.otherE s), cnt := st.cnt + 1 }).1 = 0 :=
              Nat.le_zero.mp (le_trans (ih _ hndr) (by simp [hm2]))
            rw [h0, if_pos rfl]
            simp [hpf]
          · rw [if_neg hmm, Nat.zero_add]
            exact le_trans (ih _ hndr)
              (iteCountMono fun hcc => ⟨List.mem_cons_of_mem m2 hcc.1, hcc.2⟩)

theorem runCycles_callsTo_le (call : ℕ → String → CallResult) (probe : ℕ → Bool)
    (models : List String) (minDelay : ℕ) (totalCycles : ℕ) (m : String)
    (hnd : models.Nodup) :
    ∀ rem cycle st,
      callsTo m (runCycles call probe models minDelay totalCycles rem cycle st).1 ≤ rem := by
  intro rem
  induction rem with
  | zero => intro cycle st; simp [runCycles, callsTo]
  | succ rem ih =>
    intro cycle st
    have hmle := runModels_callsTo_le call probe minDelay m models st hnd
    have hb : callsTo m (runModels call probe minDelay models st).1 ≤ 1 :=
      le_trans hmle (by split <;> omega)
    rcases hr : runModels call probe minDelay models st with ⟨evs, out⟩
    rw [hr] at hb
    simp only at hb
    cases out with
    | inr o =>
      simp only [runCycles, hr]
      split_ifs <;> simp only [callsTo, callsTo_append, List.append_eq, List.cons_append, List.nil_append, List.append_assoc] <;> omega
    | inl st' =>
      have hih1 := ih (cycle + 1) { st' with now := st'.now + 2 }
      have hih2 := ih (cycle + 1) st'
      simp only [runCycles, hr]
      split_ifs <;> simp only [callsTo, callsTo_append, List.append_eq, List.cons_append, List.nil_append, List.append_assoc] <;> omega

theorem runModels_perm_one (call : ℕ → String → CallResult) (probe : ℕ → Bool)
    (minDelay : ℕ) (m : String) (hperm : ∀ n, isPermRes (call n m) = true) :
    ∀ (ms : List String) (st : RetrySt),
      callsTo m (runModels call probe minDelay ms st).1 ≤ 1 ∧
      (m ∈ st.pf → callsTo m (runModels call probe minDelay ms st).1 = 0) ∧
      (∀ st', (runModels call probe minDelay ms st).2 = Sum.inl st' →
        1 ≤ callsTo m (runModels call probe minDelay ms st).1 → m ∈ st'.pf) := by
  intro ms
  induction ms with
  | nil =>
    intro st
    refine ⟨by simp [runModels, callsTo], fun _ => rfl, ?_⟩
    intro st' _ h1
    simp [runModels, callsTo] at h1
  | cons m2 rest ih =>
    intro st
    have hswz := smartWait_callsTo m probe m2 st.lastUsed minDelay st.now
    by_cases hpf : m2 ∈ st.pf
    · simpa only [runModels, if_pos hpf] using ih st
    · cases hsw : (smartWait probe m2 st.lastUsed minDelay st.now).2 with
      | error r =>
        refine ⟨?_, fun _ => ?_, ?_⟩
        · simp only [runModels, if_neg hpf, hsw]
          simp [hswz]
        · simp only [runModels, if_neg hpf, hsw]
          simpa using hswz
        · intro st' h
          simp [runModels, hpf, hsw] at h
      | ok now1 =>
        by_cases hmm : m2 = m
        · subst hmm
          have hp2 := hperm st.cnt
          cases hc : call st.cnt m2 with
          | success text => rw [hc] at hp2; cases hp2
          | skipErr s => rw [hc] at hp2; cases hp2
          | abortErr s => rw [hc] at hp2; cases hp2
          | otherErr s => rw [hc] at hp2; cases hp2
          | permErr s =>
            obtain ⟨ihb1, ihb2, ihb3⟩ := ih
              { st with
                  now := now1, pf := m2 :: st.pf,
                  lastUsed := fun x => if x = m2 then some now1 else st.lastUsed x,
                  lastError := some (.permE s), cnt := st.cnt + 1 }
            have h00 := ihb2 (by exact List.mem_cons_self m2 st.pf)
            refine ⟨?_, fun hmp => absurd hmp hpf, ?_⟩
            · simp only [runModels, if_neg hpf, hsw, hc, callsTo_append, callsTo,
                List.append_eq, List.cons_append, List.nil_append, List.append_assoc]
              simp [hswz, h00]
            · intro st' h h1
              simp only [runModels, if_neg hpf, hsw, hc] at h
              exact runModels_pf_mono call probe minDelay rest _ st' h
                (List.mem_cons_self m2 st.pf)
        · cases hc : call st.cnt m2 with
          | success text =>
            by_cases ht : strTrim text ≠ ""
            · refine ⟨?_, fun _ => ?_, ?_⟩
              · simp only [runModels, if_neg hpf, hsw, hc, if_pos ht, callsTo_append,
                  callsTo, List.append_eq, List.cons_append, List.nil_append]
                simp [hswz, hmm]
              · simp only [runModels, if_neg hpf, hsw, hc, if_pos ht, callsTo_append,
                  callsTo, List.append_eq, List.cons_append, List.nil_append]
                simp [hswz, hmm]
              · intro st' h
                simp [runModels, hpf, hsw, hc, ht] at h
            · obtain ⟨ihb1, ihb2, ihb3⟩ := ih
                { st with
                    now := now1,
                    lastUsed := fun x => if x = m2 then some now1 else st.lastUsed x,
                    cnt := st.cnt + 1 }
              refine ⟨?_, fun hmp => ?_, ?_⟩
              · simp only [runModels, if_neg hpf, hsw, hc, if_neg ht, callsTo_append,
                  callsTo, List.append_eq, List.cons_append, List.nil_append,
                  List.append_assoc]
                simp [hswz, hmm]
                omega
              · simp only [runModels, if_neg hpf, hsw, hc, if_neg ht, callsTo_append,
                  callsTo, List.append_eq, List.cons_append, List.nil_append,
                  List.append_assoc]
                simp [hswz, hmm]
                exact ihb2 hmp
              · intro st' h h1
                simp only [runModels, if_neg hpf, hsw, hc, if_neg ht] at h
                refine ihb3 st' h ?_
                simp only [runModels, if_neg hpf, hsw, hc, if_neg ht, callsTo_append,
                  callsTo, List.append_eq, List.cons_append, List.nil_append,
                  List.append_assoc] at h1
                simp [hswz, hmm] at h1
                omega
          | permErr s =>
            obtain ⟨ihb1, ihb2, ihb3⟩ := ih
              { st with
                  now := now1, pf := m2 :: st.pf,
                  lastUsed := fun x => if x = m2 then some now1 else st.lastUsed x,
                  lastError := some (.permE s), cnt := st.cnt + 1 }
            refine ⟨?_, fun hmp => ?_, ?_⟩
            · simp only [runModels, if_neg hpf, hsw, hc, callsTo_append, callsTo,
                List.append_eq, List.cons_append, List.nil_append, List.append_assoc]
              simp [hswz, hmm]
              omega
            · simp only [runModels, if_neg hpf, hsw, hc, callsTo_append, callsTo,
                List.append_eq, List.cons_append, List.nil_append, List.append_assoc]
              simp [hswz, hmm]
              exact ihb2 (List.mem_cons_of_mem m2 hmp)
            · intro st' h h1
              simp only [runModels, if_neg hpf, hsw, hc] at h
              refine ihb3 st' h ?_
              simp only [runModels, if_neg hpf, hsw, hc, callsTo_append, callsTo,
                List.append_eq, List.cons_append, List.nil_append,
                List.append_assoc] at h1
              simp [hswz, hmm] at h1
              omega
          | skipErr s =>
            obtain ⟨ihb1, ihb2, ihb3⟩ := ih
              { st with
                  now := now1,
                  lastUsed := fun x => if x = m2 then some now1 else st.lastUsed x,
                  lastError := some (.skipE s), cnt := st.cnt + 1 }
            refine ⟨?_, fun hmp => ?_, ?_⟩
            · simp only [runModels, if_neg hpf, hsw, hc, callsTo_append, callsTo,
                List.append_eq, List.cons_append, List.nil_append, List.append_assoc]
              simp [hswz, hmm]
              omega
            · simp only [runModels, if_neg hpf, hsw, hc, callsTo_append, callsTo,
                List.append_eq, List.cons_append, List.nil_append, List.append_assoc]
              simp [hswz, hmm]
              exact ihb2 hmp
            · intro st' h h1
              simp only [runModels, if_neg hpf, hsw, hc] at h
              refine ihb3 st' h ?_
              simp only [runModels, if_neg hpf, hsw, hc, callsTo_append, callsTo,
                List.append_eq, List.cons_append, List.nil_append,
                List.append_assoc] at h1
              simp [hswz, hmm] at h1
              omega
          | abortErr s =>
            refine ⟨?_, fun _ => ?_, ?_⟩
            · simp only [runModels, if_neg hpf, hsw, hc, callsTo_append, callsTo,
                List.append_eq, List.cons_append, List.nil_append]
              simp [hswz, hmm]
            · simp only [runModels, if_neg hpf, hsw, hc, callsTo_append, callsTo,
                List.append_eq, List.cons_append, List.nil_append]
              simp [hswz, hmm]
            · intro st' h
              simp [runModels, hpf, hsw, hc] at h
          | otherErr s =>
            obtain ⟨ihb1, ihb2, ihb3⟩ := ih
              { st with
                  now := now1,
                  lastUsed := fun x => if x = m2 then some now1 else st.lastUsed x,
                  lastError := some (.otherE s), cnt := st.cnt + 1 }
            refine ⟨?_, fun hmp => ?_, ?_⟩
            · simp only [runModels, if_neg hpf, hsw, hc, callsTo_append, callsTo,
                List.append_eq, List.cons_append, List.nil_append, List.append_assoc]
              simp [hswz, hmm]
              omega
            · simp only [runModels, if_neg hpf, hsw, hc, callsTo_append, callsTo,
                List.append_eq, List.cons_append, List.nil_append, List.append_assoc]
              simp [hswz, hmm]
              exact ihb2 hmp
            · intro st' h h1
              simp only [runModels, if_neg hpf, hsw, hc] at h
              refine ihb3 st' h ?_
              simp only [runModels, if_neg hpf, hsw, hc, callsTo_append, callsTo,
                List.append_eq, List.cons_append, List.nil_append,
                List.append_assoc] at h1
              simp [hswz, hmm] at h1
              omega

theorem runCycles_perm_total (call : ℕ → String → CallResult) (probe : ℕ → Bool)
    (models : List String) (minDelay : ℕ) (totalCycles : ℕ) (m : String)
    (hperm : ∀ n, isPermRes (call n m) = true) :
    ∀ rem cycle st,
      (m ∈ st.pf →
        callsTo m (runCycles call probe models minDelay totalCycles rem cycle st).1 = 0) ∧
      callsTo m (runCycles call probe models minDelay totalCycles rem cycle st).1 ≤ 1 := by
  intro rem
  induction rem with
  | zero => intro cycle st; exact ⟨fun _ => rfl, by simp [runCycles, callsTo]⟩
  | succ rem ih =>
    intro cycle st
    obtain ⟨hb1, hb2, hb3⟩ := runModels_perm_one call probe minDelay m hperm models st
    rcases hr : runModels call probe minDelay models st with ⟨evs, out⟩
    rw [hr] at hb1 hb2 hb3
    simp only at hb1 hb2 hb3
    cases out with
    | inr o =>
      constructor
      · intro hmp
        have h0 : callsTo m evs = 0 := hb2 hmp
        simp only [runCycles, hr]
        split_ifs <;> simp [callsTo, callsTo_append, List.append_eq, List.cons_append,
          List.nil_append, List.append_assoc, h0]
      · simp only [runCycles, hr]
        split_ifs <;> simp only [callsTo, callsTo_append, List.append_eq,
          List.cons_append, List.nil_append, List.append_assoc] <;> omega
    | inl st' =>
      have hmono := runModels_pf_mono call probe minDelay models st st' (by rw [hr])
      have hzero : m ∈ st.pf →
          callsTo m (runCycles call probe models minDelay totalCycles
            (rem + 1) cycle st).1 = 0 := by
        intro hmp
        have h0 : callsTo m evs = 0 := hb2 hmp
        have hih1 := (ih (cycle + 1) { st' with now := st'.now + 2 }).1 (hmono hmp)
        have hih2 := (ih (cycle + 1) st').1 (hmono hmp)
        simp only [runCycles, hr]
        split_ifs <;> simp [callsTo, callsTo_append, List.append_eq, List.cons_append,
          List.nil_append, List.append_assoc, h0, hih1, hih2]
      refine ⟨hzero, ?_⟩
      by_cases hmp : m ∈ st.pf
      · rw [hzero hmp]
        omega
      · by_cases hone : 1 ≤ callsTo m evs
        · have hmem2 : m ∈ st'.pf := hb3 st' rfl hone
          have hih1 := (ih (cycle + 1) { st' with now := st'.now + 2 }).1 hmem2
          have hih2 := (ih (cycle + 1) st').1 hmem2
          simp only [runCycles, hr]
          split_ifs <;> simp only [callsTo, callsTo_append, List.append_eq,
            List.cons_append, List.nil_append, List.append_assoc] <;>
            simp [hih1, hih2] <;> omega
        · have h0 : callsTo m evs = 0 := by omega
          have hih1 := (ih (cycle + 1) { st' with now := st'.now + 2 }).2
          have hih2 := (ih (cycle + 1) st').2
          simp only [runCycles, hr]
          split_ifs <;> simp only [callsTo, callsTo_append, List.append_eq,
            List.cons_append, List.nil_append, List.append_assoc] <;>
            simp [h0] <;> omega

theorem slept_append (xs ys : List Ev) : slept (xs ++ ys) = slept xs + slept ys := by
  induction xs with
  | nil => simp [slept]
  | cons e rest ih => cases e <;> (simp [slept, ih]; try omega)

theorem smartWaitGo_clock (probe : ℕ → Bool) (n : ℕ) :
    ∀ t, (smartWaitGo probe n t).2 = .ok (t + slept (smartWaitGo probe n t).1) ∨
      ∃ r, (smartWaitGo probe n t).2 = .error r ∧ probe r = true ∧
        r = t + slept (smartWaitGo probe n t).1 := by
  induction n with
  | zero => intro t; left; simp [smartWaitGo, slept]
  | succ n ih =>
    intro t
    by_cases hp : probe t
    · right
      exact ⟨t, by simp [smartWaitGo, hp, slept], hp, by simp [smartWaitGo, hp, slept]⟩
    · rcases ih (t + 1) with h | ⟨r, h1, h2, h3⟩
      · left
        simp only [smartWaitGo, if_neg hp, slept]
        rw [h]
        congr 1
        omega
      · right
        refine ⟨r, by simp only [smartWaitGo, if_neg hp]; exact h1, h2, ?_⟩
        simp only [smartWaitGo, if_neg hp, slept]
        omega

theorem smartWait_clock (probe : ℕ → Bool) (m : String) (ts : String → Option ℕ)
    (minDelay now : ℕ) :
    (smartWait probe m ts minDelay now).2
        = .ok (now + slept (smartWait probe m ts minDelay now).1) ∨
      ∃ r, (smartWait probe m ts minDelay now).2 = .error r ∧ probe r = true ∧
        r = now + slept (smartWait probe m ts minDelay now).1 := by
  unfold smartWait
  cases ts m with
  | none => left; simp [slept]
  | some last =>
    by_cases h : minDelay ≤ now - last
    · left; simp [h, slept]
    · simp only [if_neg h]
      exact smartWaitGo_clock probe (minDelay - (now - last)) now

theorem runModels_clock (call : ℕ → String → CallResult) (probe : ℕ → Bool)
    (minDelay : ℕ) (ms : List String) :
    ∀ st,
      (∀ st', (runModels call probe minDelay ms st).2 = Sum.inl st' →
        st'.now = st.now + slept (runModels call probe minDelay ms st).1) ∧
      ((runModels call probe minDelay ms st).2 = Sum.inr (.error .cancelled) →
        probe (st.now + slept (runModels call probe minDelay ms st).1) = true) := by
  induction ms with
  | nil =>
    intro st
    constructor
    · intro st' h
      cases h
      simp [runModels, slept]
    · intro h
      simp [runModels] at h
  | cons m2 rest ih =>
    intro st
    by_cases hpf : m2 ∈ st.pf
    · simpa only [runModels, if_pos hpf] using ih st
    · rcases smartWait_clock probe m2 st.lastUsed minDelay st.now with hsw | ⟨r, h1, h2, h3⟩
      · cases hswe : (smartWait probe m2 st.lastUsed minDelay st.now).2 with
        | error r => rw [hswe] at hsw; cases hsw
        | ok now1 =>
          rw [hswe] at hsw
          have hnow1 : now1 = st.now + slept (smartWait probe m2 st.lastUsed minDelay st.now).1 :=
            Except.ok.inj hsw
          cases hc : call st.cnt m2 with
          | success text =>
            by_cases ht : strTrim text ≠ ""
            · constructor
              · intro st' h
                simp [runModels, hpf, hswe, hc, ht] at h
              · intro h
                simp [runModels, hpf, hswe, hc, ht] at h
            · have hrec := ih
                { st with
                    now := now1,
                    lastUsed := fun x => if x = m2 then some now1 else st.lastUsed x,
                    cnt := st.cnt + 1 }
              constructor
              · intro st' h
                simp only [runModels, if_neg hpf, hswe, hc, if_neg ht] at h ⊢
                rw [hrec.1 st' h, slept_append, slept_append]
                simp [slept, hnow1]
                omega
              · intro h
                simp only [runModels, if_neg hpf, hswe, hc, if_neg ht] at h ⊢
                have := hrec.2 h
                rw [slept_append, slept_append]
                simp only [slept]
                simpa [hnow1, Nat.add_assoc] using this
          | permErr s =>
            have hrec := ih
              { st with
                  now := now1, pf := m2 :: st.pf,
                  lastUsed := fun x => if x = m2 then some now1 else st.lastUsed x,
                  lastError := some (.permE s), cnt := st.cnt + 1 }
            constructor
            · intro st' h
              simp only [runModels, if_neg hpf, hswe, hc] at h ⊢
              rw [hrec.1 st' h, slept_append, slept_append]
              simp [slept, hnow1]
              omega
            · intro h
              simp only [runModels, if_neg hpf, hswe, hc] at h ⊢
              have := hrec.2 h
              rw [slept_append, slept_append]
              simp only [slept]
              simpa [hnow1, Nat.add_assoc] using this
          | skipErr s =>
            have hrec := ih
              { st with
                  now := now1,
                  lastUsed := fun x => if x = m2 then some now1 else st.lastUsed x,
                  lastError := some (.skipE s), cnt := st.cnt + 1 }
            constructor
            · intro st' h
              simp only [runModels, if_neg hpf, hswe, hc] at h ⊢
              rw [hrec.1 st' h, slept_append, slept_append]
              simp [slept, hnow1]
              omega
            · intro h
              simp only [runModels, if_neg hpf, hswe, hc] at h ⊢
              have := hrec.2 h
              rw [slept_append, slept_append]
              simp only [slept]
              simpa [hnow1, Nat.add_assoc] using this
          | abortErr s =>
            constructor
            · intro st' h
              simp [runModels, hpf, hswe, hc] at h
            · intro h
              simp [runModels, hpf, hswe, hc] at h
          | otherErr s =>
            have hrec := ih
              { st with
                  now := now1,
                  lastUsed := fun x => if x = m2 then some now1 else st.lastUsed x,
                  lastError := some (.otherE s), cnt := st.cnt + 1 }
            constructor
            · intro st' h
              simp only [runModels, if_neg hpf, hswe, hc] at h ⊢
              rw [hrec.1 st' h, slept_append, slept_append]
              simp [slept, hnow1]
              omega
            · intro h
              simp only [runModels, if_neg hpf, hswe, hc] at h ⊢
              have := hrec.2 h
              rw [slept_append, slept_append]
              simp only [slept]
              simpa [hnow1, Nat.add_assoc] using this
      · constructor
        · intro st' h
          simp [runModels, hpf, h1] at h
        · intro _
          simp only [runModels, if_neg hpf, h1]
          rw [← h3]
          exact h2

theorem runCycles_cancel_probe (call : ℕ → String → CallResult) (probe : ℕ → Bool)
    (models : List String) (minDelay : ℕ) (totalCycles : ℕ) :
    ∀ rem cycle st,
      (runCycles call probe models minDelay totalCycles rem cycle st).2
          = .error .cancelled →
      probe (st.now +
        slept (runCycles call probe models minDelay totalCycles rem cycle st).1) = true := by
  intro rem
  induction rem with
  | zero => intro cycle st h; simp [runCycles] at h
  | succ rem ih =>
    intro cycle st h
    by_cases hp : probe st.now
    · simp only [runCycles, if_pos hp, slept]
      simpa using hp
    · by_cases hav : models.filter (fun m => m ∉ st.pf) = []
      · simp only [runCycles, if_neg hp, if_pos hav] at h
        simp at h
      · rcases hr : runModels call probe minDelay models st with ⟨evs, out⟩
        have hclock := runModels_clock call probe minDelay models st
        rw [hr] at hclock
        simp only at hclock
        cases out with
        | inr o =>
          simp only [runCycles, if_neg hp, if_neg hav, hr] at h ⊢
          have hpr := hclock.2 (by rw [h])
          simp only [slept]
          exact hpr
        | inl st' =>
          have hnow := hclock.1 st' rfl
          simp only [runCycles, if_neg hp, if_neg hav, hr] at h ⊢
          by_cases hcy : cycle < totalCycles
          · simp only [if_pos hcy] at h ⊢
            have hrec := ih (cycle + 1) { st' with now := st'.now + 2 } h
            simp only at hrec
            simp only [slept, slept_append, List.append_eq, List.cons_append,
              List.nil_append, List.append_assoc]
            convert hrec using 2
            omega
          · simp only [if_neg hcy] at h ⊢
            have hrec := ih (cycle + 1) st' h
            simp only [slept, slept_append, List.append_eq, List.cons_append,
              List.nil_append, List.append_assoc]
            convert hrec using 2
            omega

theorem retryLoop_cancel_probe (call : ℕ → String → CallResult) (probe : ℕ → Bool)
    (models : List String) (minDelay : ℕ) (totalCycles : ℕ) (t0 : ℕ)
    (h : (retryLoop call probe models minDelay totalCycles t0).2 = .error .cancelled) :
    probe (t0 + slept (retryLoop call probe models minDelay totalCycles t0).1) = true :=
  runCycles_cancel_probe call probe models minDelay totalCycles totalCycles 1 _ h

/-! ## Theorems -/

/-- Claim C2 counterexample: the inter-cycle pause of `_retry_loop` is a
single flat `time.sleep(1)` (2 ticks of `0.5` s) with no probe check inside
it — not a sequence of small interruptible increments.  Concretely, with
one always-Skip model, 2 cycles, and a probe that first reports
cancellation at tick 1 (mid-pause: the pause spans ticks 0 to 2), the
trace contains a single sleep of 2 ticks (so NOT every sleep is one `0.5` s
increment) with no probe check during it, and the cancellation is only
noticed by the next cycle's check at tick 2, after the full pause — not
within the running sleep. -/
theorem c2_counterexample :
    retryLoop (fun _ _ => .skipErr "e") (fun t => decide (1 ≤ t)) ["a"] 2 2 0
        = ([.checkEv 0, .cycleEv 1, .callEv "a", .sleepEv 2, .checkEv 2], .error .cancelled) ∧
      ¬(∀ d : ℕ, Ev.sleepEv d
          ∈ (retryLoop (fun _ _ => .skipErr "e") (fun t => decide (1 ≤ t)) ["a"] 2 2 0).1 →
          d ≤ 1) := by
  constructor
  · rfl
  · intro h
    have h1 := h 2 (by decide)
    omega

/-- Claim C2 (amended): the per-model smart wait is interruptible — every
sleep it performs is a single 1-tick (`0.5` s) increment, the probe is
re-checked at least once per increment, and when the smart-wait loop raises
the cancellation error at time `r`, the probe is true at `r` and either `r`
is the entry time or the probe was still false one increment earlier — so
cancellation during a smart wait is acted on within one increment.  The
inter-cycle pause, by contrast, is a single flat 2-tick (1 s) sleep with no
probe check (see the counterexample). -/
theorem c2_amended_sleeps :
    (∀ (probe : ℕ → Bool) (n : ℕ) (t0 : ℕ) (d : ℕ),
      Ev.sleepEv d ∈ (smartWaitGo probe n t0).1 → d = 1) ∧
    (∀ (probe : ℕ → Bool) (n : ℕ) (t0 : ℕ),
      (smartWaitGo probe n t0).1.countP isSleepEv
        ≤ (smartWaitGo probe n t0).1.countP isCheckEv) ∧
    (∀ (probe : ℕ → Bool) (n : ℕ) (t0 r : ℕ),
      (smartWaitGo probe n t0).2 = .error r →
        probe r = true ∧ (r = t0 ∨ probe (r - 1) = false)) := by
  refine ⟨?_, ?_, ?_⟩
  · intro probe n
    induction n with
    | zero => intro t0 d hd; simp [smartWaitGo] at hd
    | succ n ih =>
      intro t0 d hd
      by_cases hp : probe t0
      · simp [smartWaitGo, hp] at hd
      · simp only [smartWaitGo, if_neg hp, List.mem_cons] at hd
        rcases hd with hd | hd | hd
        · cases hd
        · cases hd; rfl
        · exact ih (t0 + 1) d hd
  · intro probe n
    induction n with
    | zero => intro t0; simp [smartWaitGo]
    | succ n ih =>
      intro t0
      by_cases hp : probe t0
      · simp [smartWaitGo, hp, isSleepEv, isCheckEv]
      · simp only [smartWaitGo, if_neg hp, List.countP_cons, isSleepEv, isCheckEv]
        have := ih (t0 + 1)
        simp only [isSleepEv, isCheckEv] at this
        omega
  · intro probe n
    induction n with
    | zero => intro t0 r h; simp [smartWaitGo] at h
    | succ n ih =>
      intro t0 r h
      by_cases hp : probe t0
      · simp only [smartWaitGo, if_pos hp] at h
        cases h
        exact ⟨hp, Or.inl rfl⟩
      · simp only [smartWaitGo, if_neg hp] at h
        obtain ⟨h1, h2⟩ := ih (t0 + 1) r h
        refine ⟨h1, ?_⟩
        rcases h2 with h2 | h2
        · right
          rw [h2]
          simpa using hp
        · exact Or.inr h2

/-- Witness for C2 (amended): a concrete smart-wait run whose probe fires
at tick 1 raises at tick 1, where the probe is true and was false one
increment earlier. -/
theorem c2_amended_sleeps_witness :
    (fun t => decide (1 ≤ t)) 1 = true ∧
      (1 = 0 ∨ (fun t => decide (1 ≤ t)) (1 - 1) = false) :=
  c2_amended_sleeps.2.2 (fun t => decide (1 ≤ t)) 2 0 1 rfl

/-- Counterexample for C3: the claim bounds every model's attempts by the
cycle count `C` for every model list, but `_retry_loop` iterates the model
list as given, so a duplicated model is attempted once per occurrence per
cycle. With `models = ["a", "a"]` and `C = 2` cycles of all-Skip failures,
model `"a"` is attempted 4 times, exceeding the claimed bound of 2. -/
theorem c3_counterexample :
    callsTo "a" (retryLoop (fun _ _ => .skipErr "s")
        (fun _ => false) ["a", "a"] 0 2 0).1 = 4 ∧
      ¬ callsTo "a" (retryLoop (fun _ _ => .skipErr "s")
        (fun _ => false) ["a", "a"] 0 2 0).1 ≤ 2 :=
  ⟨rfl, by decide⟩

/-- Claim C3 (amended): within one credential's retry loop (`_retry_loop`),
attempts are bounded per occurrence in the model list: for a duplicate-free
model list every model is attempted at most `totalCycles` (= configured
cycle count `C`) times, while a model listed k times may be attempted up to
k·C times. Independently of duplicates, a model whose failures are always
classified Permanent is attempted at most once in total for the call — the
first Permanent failure marks it `permanently_failed` and every occurrence
is skipped in all later iterations. -/
theorem c3_model_attempt_bound (call : ℕ → String → CallResult) (probe : ℕ → Bool)
    (models : List String) (minDelay totalCycles t0 : ℕ) (m : String) :
    (models.Nodup →
      callsTo m (retryLoop call probe models minDelay totalCycles t0).1 ≤ totalCycles) ∧
      ((∀ n, isPermRes (call n m) = true) →
        callsTo m (retryLoop call probe models minDelay totalCycles t0).1 ≤ 1) := by
  constructor
  · intro hnd
    exact runCycles_callsTo_le call probe models minDelay totalCycles m hnd
      totalCycles 1 _
  · intro hperm
    exact (runCycles_perm_total call probe models minDelay totalCycles m hperm
      totalCycles 1 _).2

/-- Witness for C3 (amended): over the duplicate-free list `["a", "b"]`,
model `"a"` always fails Permanent while `"b"` always skips; with 3 cycles,
`"a"` is attempted at most 3 times by the first bound and at most once by
the Permanent bound. -/
theorem c3_model_attempt_bound_witness :
    callsTo "a" (retryLoop (fun _ mm => if mm = "a" then .permErr "gone" else .skipErr "s")
        (fun _ => false) ["a", "b"] 2 3 0).1 ≤ 3 ∧
      callsTo "a" (retryLoop (fun _ mm => if mm = "a" then .permErr "gone" else .skipErr "s")
        (fun _ => false) ["a", "b"] 2 3 0).1 ≤ 1 := by
  have h := c3_model_attempt_bound
    (fun _ mm => if mm = "a" then .permErr "gone" else .skipErr "s")
    (fun _ => false) ["a", "b"] 2 3 0 "a"
  exact ⟨h.1 (by decide), h.2 fun n => rfl⟩

/-- Claim C6: when every attempt raises a Skip-classified error (and no
cancellation fires), the retry loop terminates after exactly the configured
number of cycles — the trace contains exactly `totalCycles` cycle starts —
and raises the models-exhausted error carrying the most recent classified
Skip error.  The concrete conjunct instantiates the spec's example (one
model `"a"`, 2 cycles): the call fails with the exhaustion error carrying
the error of the second (most recent) attempt, not the first. -/
theorem c6_all_skip_exhausts :
    (∀ (call : ℕ → String → CallResult) (probe : ℕ → Bool)
        (models : List String) (minDelay totalCycles t0 : ℕ),
      (∀ n m, isSkipRes (call n m) = true) → (∀ t, probe t = false) →
      models ≠ [] → 1 ≤ totalCycles →
      (∃ s, (retryLoop call probe models minDelay totalCycles t0).2
          = .error (.modelsExhausted (some (.skipE s)))) ∧
      (retryLoop call probe models minDelay totalCycles t0).1.countP isCycleEv
          = totalCycles) ∧
    retryLoop (fun n _ => .skipErr (if n = 0 then "first" else "second"))
        (fun _ => false) ["a"] 2 2 0
      = ([.checkEv 0, .cycleEv 1, .callEv "a", .sleepEv 2, .checkEv 2, .cycleEv 2,
          .callEv "a"],
         .error (.modelsExhausted (some (.skipE "second")))) := by
  constructor
  · intro call probe models minDelay totalCycles t0 hsk hp hm htc
    have hex : ∃ x ∈ models, x ∉
        (({ now := t0, pf := [], lastUsed := fun _ => none, lastError := none,
            cnt := 0 } : RetrySt)).pf := by
      cases models with
      | nil => exact absurd rfl hm
      | cons x rest => exact ⟨x, List.mem_cons_self x rest, by simp⟩
    exact runCycles_allSkip call probe models minDelay totalCycles hsk hp
      totalCycles 1 _ htc hex
  · rfl

/-- Witness for C6 at the spec's concrete example (always-Skip model `"a"`,
2 cycles): exhaustion with a Skip-classified last error after exactly 2
cycle starts. -/
theorem c6_all_skip_exhausts_witness :
    (∃ s, (retryLoop (fun n _ => .skipErr (if n = 0 then "first" else "second"))
        (fun _ => false) ["a"] 2 2 0).2
      = .error (.modelsExhausted (some (.skipE s)))) ∧
    (retryLoop (fun n _ => .skipErr (if n = 0 then "first" else "second"))
        (fun _ => false) ["a"] 2 2 0).1.countP isCycleEv = 2 :=
  c6_all_skip_exhausts.1 (fun n _ => .skipErr (if n = 0 then "first" else "second"))
    (fun _ => false) ["a"] 2 2 0 (fun _ _ => rfl) (fun _ => rfl) (by decide) (by decide)

/-- Claim C1 counterexample: with a cancellation probe that reports
cancellation and two credentials, the cancellation error raised inside the
first credential's retry loop does NOT propagate directly to the caller —
the rotation layer catches it, the second credential is still attempted
(its `keyEv` is in the trace), and the final error is the all-exhausted
error wrapping Cancelled.  This refutes "bypassing all remaining
credentials" and "never converted into the final all-exhausted error". -/
theorem c1_counterexample :
    (generate (fun _ _ _ => .skipErr "e") (fun _ => true) ["k1", "k2"] [] ["m"] [] 1 2 0).2
        = .error (.allKeysExhausted (some .cancelled)) ∧
      Ev.keyEv "k2"
        ∈ (generate (fun _ _ _ => .skipErr "e") (fun _ => true) ["k1", "k2"] [] ["m"] [] 1 2 0).1 :=
  ⟨rfl, by decide⟩

/-- Claim C1 (amended): cancellation is observed only at the cancellation
checks — the start of each cycle and before each smart-wait increment; a
model call whose checks have already passed still completes (there is no
check between the end of a smart wait and the call, nor before a
first-attempt call, so a call can still be made after cancellation fires).
Conjunct 1: when cancellation is active at a credential's entry, its retry
loop raises the Cancelled ValueError at the opening cycle check — no model
call, no cycle.  Conjunct 2 (mid-flight): whenever some credential's retry
loop raises Cancelled, the rotation loop catches it like any other failure
and iterates the remaining credentials, but each of them re-raises
Cancelled at its opening check so the whole call makes no model call beyond
those of the cancelled credential, and `generate`'s rotation ends in the
all-exhausted error carrying Cancelled as the last error.  Conjunct 3: the
same conversion at `generate` level when cancellation is active at call
entry: the all-exhausted error wrapping Cancelled, with zero model calls. -/
theorem c1_amended_cancellation :
    (∀ (call : ℕ → String → CallResult) (probe : ℕ → Bool)
        (models : List String) (minDelay totalCycles t0 : ℕ),
      1 ≤ totalCycles → probe t0 = true →
      retryLoop call probe models minDelay totalCycles t0
        = ([.checkEv t0], .error .cancelled)) ∧
    (∀ (call : String → ℕ → String → CallResult) (probe : ℕ → Bool)
        (models : List String) (minDelay totalCycles : ℕ)
        (k : String) (rest : List String) (t0 : ℕ) (le : Option RetryErr),
      1 ≤ totalCycles →
      (retryLoop (call k) probe models minDelay totalCycles t0).2 = .error .cancelled →
      (genGo call probe models minDelay totalCycles (k :: rest) t0 le).2
          = .error (.allKeysExhausted (some .cancelled)) ∧
        (genGo call probe models minDelay totalCycles (k :: rest) t0 le).1.countP isCallEv
          = (retryLoop (call k) probe models minDelay totalCycles t0).1.countP isCallEv) ∧
    (∀ (call : String → ℕ → String → CallResult) (probe : ℕ → Bool)
        (apiKeys envKeys modelList defaultModels : List String)
        (minDelay totalCycles t0 : ℕ),
      probe t0 = true →
      (if modelList = [] then defaultModels else modelList) ≠ [] →
      (if apiKeys = [] then envKeys else apiKeys) ≠ [] →
      1 ≤ totalCycles →
      (generate call probe apiKeys envKeys modelList defaultModels minDelay totalCycles t0).2
          = .error (.allKeysExhausted (some .cancelled)) ∧
        (generate call probe apiKeys envKeys modelList defaultModels
          minDelay totalCycles t0).1.countP isCallEv = 0) := by
  refine ⟨?_, ?_, ?_⟩
  · intro call probe models minDelay totalCycles t0 htc hp
    exact retryLoop_probe_true call probe models minDelay totalCycles t0 hp htc
  · intro call probe models minDelay totalCycles k rest t0 le htc hcanc
    have hpr : probe (t0 + slept (retryLoop (call k) probe models minDelay
        totalCycles t0).1) = true :=
      retryLoop_cancel_probe (call k) probe models minDelay totalCycles t0 hcanc
    rcases hr : retryLoop (call k) probe models minDelay totalCycles t0 with ⟨revs, res⟩
    rw [hr] at hcanc hpr
    simp only at hcanc hpr
    subst hcanc
    by_cases hrest : rest = []
    · subst hrest
      constructor
      · simp [genGo, hr]
      · simp only [genGo, hr, List.countP_cons, List.countP_append, List.countP_nil,
          isCallEv]
        simp
    · obtain ⟨h1, h2⟩ := genGo_probe_true call probe models minDelay totalCycles htc
        rest (t0 + slept revs) (some .cancelled) hrest hpr
      constructor
      · simp only [genGo, hr]
        exact h1
      · simp only [genGo, hr, List.countP_cons, List.countP_append, h2, isCallEv]
        simp
  · intro call probe apiKeys envKeys modelList defaultModels minDelay totalCycles t0
      hp hm hk htc
    obtain ⟨h1, h2⟩ := genGo_probe_true call probe
      (if modelList = [] then defaultModels else modelList) minDelay totalCycles htc
      (if apiKeys = [] then envKeys else apiKeys) t0 none hk hp
    constructor
    · simp only [generate, if_neg hm, if_neg hk]
      exact h1
    · simp only [generate, if_neg hm, if_neg hk]
      exact h2

/-- Witness for C1 (amended) at a concrete mid-flight cancellation: the
probe first reports cancellation at tick 1, after credential `"k1"` has
already made a model call; the retry loop of `"k1"` raises Cancelled at the
check opening its second cycle, `"k2"` makes no call, and the rotation ends in the
all-exhausted error wrapping Cancelled. -/
theorem c1_amended_cancellation_witness :
    (genGo (fun _ _ _ => .skipErr "e") (fun t => decide (1 ≤ t)) ["a"] 2 2
        ["k1", "k2"] 0 none).2
        = .error (.allKeysExhausted (some .cancelled)) ∧
      (genGo (fun _ _ _ => .skipErr "e") (fun t => decide (1 ≤ t)) ["a"] 2 2
        ["k1", "k2"] 0 none).1.countP isCallEv
        = (retryLoop ((fun _ _ _ => CallResult.skipErr "e") "k1") (fun t => decide (1 ≤ t))
            ["a"] 2 2 0).1.countP isCallEv :=
  c1_amended_cancellation.2.1 (fun _ _ _ => .skipErr "e") (fun t => decide (1 ≤ t))
    ["a"] 2 2 "k1" ["k2"] 0 none (by decide) rfl

/-- Claim C8: `resolve_provider_keys` evaluates the precedence chain in
order — (1) a non-empty explicit key list (stripped, blank entries dropped,
then de-duplicated), an empty or absent list falling through; (2) a single
non-empty explicit key; (3) the provider-specific environment/configuration
defaults, where (4) for `"ollama"` the configured base URL fills the
credential slot — and every failure carries the message naming which
provider's API key is missing. -/
theorem c8_resolution_precedence :
    (∀ env p a ks, ks ≠ [] →
      resolveProviderKeys env p a (some ks) =
        finalizeKeys p ((ks.filter (fun k => strTrim k ≠ "")).map strTrim)) ∧
    (∀ env p a, resolveProviderKeys env p a (some []) = resolveProviderKeys env p a none) ∧
    (∀ env p a, a ≠ "" → resolveProviderKeys env p (some a) none = .ok [strTrim a]) ∧
    (∀ env p, resolveProviderKeys env p (some "") none = resolveProviderKeys env p none none) ∧
    (∀ env p, resolveProviderKeys env p none none =
      finalizeKeys p (resolveEnvDefaults env p)) ∧
    (∀ env, resolveEnvDefaults env "ollama" = [env.ollamaBaseUrl]) ∧
    (∀ p l, finalizeKeys p l =
      (if l = [] then .error (missingKeyMsg p) else .ok (dedupKeepFirst [] l))) ∧
    (∀ env p a ks m, resolveProviderKeys env p a ks = .error m → m = missingKeyMsg p) ∧
    (∀ p, missingKeyMsg p = "Thiếu " ++ providerDisplayName p ++
      " API Key. Vui lòng thiết lập biến môi trường hoặc nhập vào giao diện.") := by
  refine ⟨?_, ?_, ?_, ?_, ?_, ?_, ?_, ?_, ?_⟩
  · intro env p a ks hks
    simp only [resolveProviderKeys, if_pos hks]
  · intro env p a
    simp [resolveProviderKeys]
  · intro env p a ha
    simp only [resolveProviderKeys, resolveFallback, if_pos ha]
    simp [finalizeKeys, dedupKeepFirst]
  · intro env p
    simp [resolveProviderKeys, resolveFallback]
  · intro env p
    simp only [resolveProviderKeys, resolveFallback]
  · intro env
    simp [resolveEnvDefaults]
  · intro p l
    rfl
  · intro env p a ks m h
    unfold resolveProviderKeys at h
    exact finalizeKeys_error _ _ _ h
  · intro p
    rfl

/-- Witness for C8: each precedence step at a concrete input — a non-empty
explicit list wins, an empty explicit list falls back to a single explicit
key, an unset environment resolves the settings default, ollama resolves its
base URL, and total failure names the provider in the error. -/
theorem c8_resolution_precedence_witness :
    resolveProviderKeys ⟨none, none, "", "", "http://u/v1"⟩ "openai" (some "sk2") (some [" sk1 "])
      = .ok ["sk1"] ∧
    resolveProviderKeys ⟨none, none, "", "", "http://u/v1"⟩ "openai" (some " sk2 ") (some [])
      = .ok ["sk2"] ∧
    resolveProviderKeys ⟨none, some "genv", "", "gcfg", "http://u/v1"⟩ "gemini" none none
      = .ok ["genv"] ∧
    resolveProviderKeys ⟨none, none, "", "", "http://u/v1"⟩ "ollama" none none
      = .ok ["http://u/v1"] ∧
    resolveProviderKeys ⟨none, none, "", "", "http://u/v1"⟩ "openai" none none
      = .error (missingKeyMsg "openai") ∧
    missingKeyMsg "openai"
      = "Thiếu OpenAI API Key. Vui lòng thiết lập biến môi trường hoặc nhập vào giao diện." := by
  have h := c8_resolution_precedence
  refine ⟨?_, ?_, ?_, ?_, ?_, ?_⟩
  · rw [h.1 _ _ _ _ (by decide)]; rfl
  · rw [h.2.1, h.2.2.1 _ _ _ (by decide)]; rfl
  · rw [h.2.2.2.2.1]; rfl
  · rw [h.2.2.2.2.1]; rfl
  · rw [h.2.2.2.2.1]; rfl
  · rw [h.2.2.2.2.2.2.2.2]; rfl

/-- Claim C4: credentials are de-duplicated by exact string equality with
the first occurrence kept and order preserved (`["k","k","j"]` resolves to
the 2 distinct credentials `["k","j"]`); the resolved list is duplicate-free
and an order-preserving sublist of the stripped input; and the rotation
layer attempts the keys in exactly that order (a prefix of the key list,
the whole list when every credential fails) — so for `["k","k","j"]` the
rotation layer attempts exactly the 2 distinct credentials `"k"` then
`"j"`. -/
theorem c4_credential_dedup_order :
    (∀ env p a, resolveProviderKeys env p a (some ["k", "k", "j"]) = .ok ["k", "j"]) ∧
    (∀ env p a ks u, resolveProviderKeys env p a ks = .ok u → u.Nodup) ∧
    (∀ env p a ks u, ks ≠ [] → resolveProviderKeys env p a (some ks) = .ok u →
      u.Sublist ((ks.filter (fun k => strTrim k ≠ "")).map strTrim)) ∧
    (∀ call probe models minDelay totalCycles keys t0 le,
      (∃ n, keyEvsOf (genGo call probe models minDelay totalCycles keys t0 le).1
        = keys.take n) ∧
      (∀ e, (genGo call probe models minDelay totalCycles keys t0 le).2 = .error e →
        keyEvsOf (genGo call probe models minDelay totalCycles keys t0 le).1 = keys)) ∧
    keyEvsOf (generate (fun _ _ _ => .skipErr "e") (fun _ => false)
      ["k", "j"] [] ["m"] [] 1 1 0).1 = ["k", "j"] := by
  refine ⟨?_, ?_, ?_, ?_, ?_⟩
  · intro env p a; rfl
  · intro env p a ks u h
    unfold resolveProviderKeys at h
    rw [finalizeKeys_ok _ _ _ h]
    exact dedupKeepFirst_nodup _ []
  · intro env p a ks u hks h
    simp only [resolveProviderKeys, if_pos hks] at h
    rw [finalizeKeys_ok _ _ _ h]
    exact dedupKeepFirst_sublist _ []
  · intro call probe models minDelay totalCycles keys t0 le
    exact genGo_keys_in_order call probe models minDelay totalCycles keys t0 le
  · decide

/-- Witness for C4: the pipeline on the concrete list `["k","k","j"]` —
resolution yields `["k","j"]`, which is duplicate-free of length 2. -/
theorem c4_credential_dedup_order_witness :
    resolveProviderKeys ⟨none, none, "", "", "http://u/v1"⟩ "gemini" none (some ["k", "k", "j"])
      = .ok ["k", "j"] ∧
    (["k", "j"] : List String).Nodup ∧ (["k", "j"] : List String).length = 2 := by
  have h := c4_credential_dedup_order
  refine ⟨h.1 _ _ _, ?_, by decide⟩
  exact h.2.1 ⟨none, none, "", "", "http://u/v1"⟩ "gemini" none (some ["k", "k", "j"])
    ["k", "j"] (h.1 _ _ _)

/-- Claim C7 counterexample: a model call returning the non-blank text
`" hello "` does NOT end the call with the pair `(text, model)` — the
engine returns `text.strip()`, i.e. `("hello", "m")`, not
`(" hello ", "m")`. -/
theorem c7_counterexample :
    (retryLoop (fun _ _ => .success " hello ") (fun _ => false) ["m"] 2 2 0).2
        = .ok ("hello", "m") ∧
      (retryLoop (fun _ _ => .success " hello ") (fun _ => false) ["m"] 2 2 0).2
        ≠ .ok (" hello ", "m") := by
  refine ⟨rfl, fun h => ?_⟩
  rw [show (retryLoop (fun _ _ => .success " hello ") (fun _ => false) ["m"] 2 2 0).2
      = Except.ok (("hello" : String), ("m" : String)) from rfl] at h
  exact absurd (Except.ok.inj h) (by decide)

/-- Claim C7 (amended): a model call returning text that is non-blank after
stripping ends the whole call immediately with `(text.strip(), model)` — no
further model, cycle or credential is touched (conjuncts 1, 3, 4 propagate
the success out of the model loop, the cycle loop and the rotation loop);
a call returning empty or blank text is treated as a Skip-equivalent
failure: the loop moves on to the next model of the same cycle with
`permanently_failed` and `last_error` untouched (conjunct 2 — the successor
state updates only the clock, the model's timestamp and the attempt
counter), so the blank-returning model stays eligible for later cycles
(conjunct 5: model `"a"` returns blank in cycle 1, `"b"` skips, and `"a"`
is attempted again in cycle 2 and succeeds). -/
theorem c7_amended_success_and_blank :
    (∀ (call : ℕ → String → CallResult) (probe : ℕ → Bool) (minDelay : ℕ)
        (m : String) (rest : List String) (st : RetrySt) (text : String) (now1 : ℕ),
      m ∉ st.pf →
      (smartWait probe m st.lastUsed minDelay st.now).2 = .ok now1 →
      call st.cnt m = .success text →
      strTrim text ≠ "" →
      runModels call probe minDelay (m :: rest) st
        = ((smartWait probe m st.lastUsed minDelay st.now).1 ++ [Ev.callEv m],
           Sum.inr (.ok (strTrim text, m)))) ∧
    (∀ (call : ℕ → String → CallResult) (probe : ℕ → Bool) (minDelay : ℕ)
        (m : String) (rest : List String) (st : RetrySt) (text : String) (now1 : ℕ),
      m ∉ st.pf →
      (smartWait probe m st.lastUsed minDelay st.now).2 = .ok now1 →
      call st.cnt m = .success text →
      strTrim text = "" →
      runModels call probe minDelay (m :: rest) st
        = ((smartWait probe m st.lastUsed minDelay st.now).1 ++ [Ev.callEv m]
            ++ (runModels call probe minDelay rest
                { st with now := now1,
                          lastUsed := fun x => if x = m then some now1 else st.lastUsed x,
                          cnt := st.cnt + 1 }).1,
           (runModels call probe minDelay rest
                { st with now := now1,
                          lastUsed := fun x => if x = m then some now1 else st.lastUsed x,
                          cnt := st.cnt + 1 }).2)) ∧
    (∀ (call : ℕ → String → CallResult) (probe : ℕ → Bool) (models : List String)
        (minDelay totalCycles rem cycle : ℕ) (st : RetrySt) (v : String × String),
      probe st.now = false →
      models.filter (fun m => m ∉ st.pf) ≠ [] →
      (runModels call probe minDelay models st).2 = Sum.inr (.ok v) →
      (runCycles call probe models minDelay totalCycles (rem + 1) cycle st).2 = .ok v) ∧
    (∀ (call : String → ℕ → String → CallResult) (probe : ℕ → Bool)
        (models : List String) (minDelay totalCycles : ℕ) (k : String)
        (rest : List String) (t0 : ℕ) (le : Option RetryErr) (v : String × String),
      (retryLoop (call k) probe models minDelay totalCycles t0).2 = .ok v →
      (genGo call probe models minDelay totalCycles (k :: rest) t0 le).2 = .ok v) ∧
    retryLoop (fun n _ => if n = 0 then .success "  " else
        if n = 1 then .skipErr "x" else .success " ok ") (fun _ => false) ["a", "b"] 2 2 0
      = ([.checkEv 0, .cycleEv 1, .callEv "a", .callEv "b", .sleepEv 2, .checkEv 2,
          .cycleEv 2, .callEv "a"],
         .ok ("ok", "a")) := by
  refine ⟨?_, ?_, ?_, ?_, rfl⟩
  · intro call probe minDelay m rest st text now1 hpf hsw hc ht
    simp [runModels, hpf, hsw, hc, ht]
  · intro call probe minDelay m rest st text now1 hpf hsw hc ht
    simp [runModels, hpf, hsw, hc, ht]
  · intro call probe models minDelay totalCycles rem cycle st v hpr hav hok
    rcases hr : runModels call probe minDelay models st with ⟨evs, out⟩
    rw [hr] at hok
    simp only at hok
    subst hok
    simp only [runCycles, hpr, Bool.false_eq_true, if_false, hr]
    split
    · next hall => exact absurd (List.filter_eq_nil_iff.mpr (by simpa using hall)) hav
    · rfl
  · intro call probe models minDelay totalCycles k rest t0 le v h
    rcases hr : retryLoop (call k) probe models minDelay totalCycles t0 with ⟨evs, out⟩
    rw [hr] at h
    simp only at h
    subst h
    simp [genGo, hr]

/-- Witness for C7 (amended): at a fresh state, a call returning `" hi "`
ends the model loop at once with `("hi", "m")` — the stripped text. -/
theorem c7_amended_success_and_blank_witness :
    runModels (fun _ _ => .success " hi ") (fun _ => false) 2 ["m"]
        { now := 0, pf := [], lastUsed := fun _ => none, lastError := none, cnt := 0 }
      = ([Ev.callEv "m"], Sum.inr (.ok ("hi", "m"))) :=
  c7_amended_success_and_blank.1 (fun _ _ => .success " hi ") (fun _ => false) 2 "m" []
    { now := 0, pf := [], lastUsed := fun _ => none, lastError := none, cnt := 0 }
    " hi " 0 (by simp) rfl rfl (by decide)

/-- Claim C10: when `generate` is called with no model list and the
provider's default model list is empty, it raises the "No models configured"
ValueError immediately — the result is independent of the credentials, the
trace is empty (no credential resolution, no retry cycle, no model call). -/
theorem c10_no_models (call : String → ℕ → String → CallResult) (probe : ℕ → Bool)
    (apiKeys envKeys modelList defaultModels : List String)
    (minDelay : ℕ) (totalCycles : ℕ) (t0 : ℕ)
    (hm : modelList = []) (hd : defaultModels = []) :
    generate call probe apiKeys envKeys modelList defaultModels minDelay totalCycles t0
      = ([], .error .noModels) := by
  subst hm hd
  rfl

/-- Witness for C10 at a concrete unconfigured provider. -/
theorem c10_no_models_witness :
    generate (fun _ _ _ => .success "hi") (fun _ => false) ["key"] ["envkey"] [] [] 15 3 0
      = ([], .error .noModels) :=
  c10_no_models _ _ _ _ _ _ _ _ _ rfl rfl

/-- Claim C9: when the credential list is empty (no explicit keys and no
environment defaults), `generate` fails immediately with the "No API keys"
ValueError and the trace is empty — zero network-shaped calls attempted. -/
theorem c9_empty_credentials (call : String → ℕ → String → CallResult) (probe : ℕ → Bool)
    (apiKeys envKeys modelList defaultModels : List String)
    (minDelay : ℕ) (totalCycles : ℕ) (t0 : ℕ)
    (hm : (if modelList = [] then defaultModels else modelList) ≠ [])
    (hk : apiKeys = []) (he : envKeys = []) :
    generate call probe apiKeys envKeys modelList defaultModels minDelay totalCycles t0
      = ([], .error .noKeys) := by
  subst hk he
  simp [generate, hm]

/-- Witness for C9: a provider with models but no credentials at all. -/
theorem c9_empty_credentials_witness :
    generate (fun _ _ _ => .success "hi") (fun _ => false) [] [] ["m1", "m2"] [] 15 3 0
      = ([], .error .noKeys) :=
  c9_empty_credentials _ _ _ _ _ _ _ _ _ (by decide) rfl rfl

/-- Claim C5: for every adapter's error classifier (Gemini, OpenAI,
Anthropic, Ollama, LiteLLM), a raw error message matching none of the
recognized patterns is classified as Skip (with the message truncated to 150
characters) — never as Abort and never as Permanent. -/
theorem c5_unknown_errors_skip :
    ∀ msg model : String,
      (geminiRecognized msg = false → geminiClassify msg model = .skip (msg.take 150)) ∧
      (openaiRecognized msg = false → openaiClassify msg model = .skip (msg.take 150)) ∧
      (anthropicRecognized msg = false → anthropicClassify msg model = .skip (msg.take 150)) ∧
      (ollamaRecognized msg = false → ollamaClassify msg model = .skip (msg.take 150)) ∧
      (litellmRecognized msg = false → litellmClassify msg model = .skip (msg.take 150)) := by
  intro msg model
  refine ⟨fun h => ?_, fun h => ?_, fun h => ?_, fun h => ?_, fun h => ?_⟩
  · simp only [geminiRecognized, Bool.or_eq_false_iff] at h
    obtain ⟨⟨⟨⟨⟨⟨h1, h2⟩, h3⟩, h4⟩, h5⟩, h6⟩, h7⟩ := h
    simp [geminiClassify, h1, h2, h3, h4, h5, h6, h7]
  · simp only [openaiRecognized, Bool.or_eq_false_iff] at h
    obtain ⟨⟨⟨⟨⟨⟨⟨h1, h2⟩, h3⟩, h4⟩, h5⟩, h6⟩, h7⟩, h8⟩ := h
    simp [openaiClassify, h1, h2, h3, h4, h5, h6, h7, h8]
  · simp only [anthropicRecognized, Bool.or_eq_false_iff] at h
    obtain ⟨⟨⟨⟨⟨⟨h1, h2⟩, h3⟩, h4⟩, h5⟩, h6⟩, h7⟩ := h
    simp [anthropicClassify, h1, h2, h3, h4, h5, h6, h7]
  · simp only [ollamaRecognized, Bool.or_eq_false_iff] at h
    obtain ⟨⟨⟨⟨⟨h1, h2⟩, h3⟩, h4⟩, h5⟩, h6⟩ := h
    simp [ollamaClassify, h1, h2, h3, h4, h5, h6]
  · simp only [litellmRecognized, Bool.or_eq_false_iff] at h
    obtain ⟨⟨⟨⟨⟨⟨⟨⟨h1, h2⟩, h3⟩, h4⟩, h5⟩, h6⟩, h7⟩, h8⟩, h9⟩ := h
    simp [litellmClassify, h1, h2, h3, h4, h5, h6, h7, h8, h9]

set_option maxRecDepth 100000 in
/-- Witness for C5: the unfamiliar message "weird glitch" matches no pattern
of any of the five classifiers and is classified Skip by each. -/
theorem c5_unknown_errors_skip_witness :
    geminiClassify "weird glitch" "m" = .skip "weird glitch" ∧
    openaiClassify "weird glitch" "m" = .skip "weird glitch" ∧
    anthropicClassify "weird glitch" "m" = .skip "weird glitch" ∧
    ollamaClassify "weird glitch" "m" = .skip "weird glitch" ∧
    litellmClassify "weird glitch" "m" = .skip "weird glitch" := by
  have h := c5_unknown_errors_skip "weird glitch" "m"
  exact ⟨h.1 (by decide), h.2.1 (by decide), h.2.2.1 (by decide),
    h.2.2.2.1 (by decide), h.2.2.2.2 (by decide)⟩

end CreateSlide
